import Mathlib

/-!
# Verification of the QR receiver reception core

Shallow embedding of the reception pipeline of the `qr_app` repository:

* `src/qr_receiver/receiver/data_parser.py` — `QRDataParser` (format detection
  and the three wire formats),
* `src/qr_receiver/archive/receiver/qr_receiver_engine.py` — `QRReceiverEngine`
  and `ReceptionSession` (session table, chunk application, completion),
* `src/qr_receiver/archive/receiver/chunk_assembler.py` — `ChunkAssembler`
  (assembly, Reed-Solomon, decrypt, decompress stages),
* `src/qr_receiver/core/config.py` — `QRReceiverConfig`.

Modelling conventions:

* Bytes are `List Nat` (each entry < 256), strings are Lean `String`s.
* Python `json.loads` is an external library call; a payload is therefore
  embedded either as an already-parsed JSON object (`QRInput.jsonObj`) or as a
  raw non-JSON text (`QRInput.raw`).  A JSON-object payload can never match the
  simple-format regex `^F:...` (its stripped text starts with a brace), so the
  two constructors cover the source's detection order faithfully.
* `hashlib.sha256(...).hexdigest()` and the optional decompression libraries
  are external primitives; they are threaded through an `ExternalEnv` record.
* Timestamps (`time.time()`) are threaded as a `Nat` argument `now`.
* Float-valued display fields (`progress_percentage`, `estimated_completion`,
  `compression_ratio`) and the pure-analytics `stats` dictionaries are not
  modelled: no control flow of the reception core depends on them.
-/

set_option maxRecDepth 100000

namespace QRReceiver

/-! ## JSON values (output of Python's `json.loads`) -/

/-- A JSON scalar as produced by `json.loads`.  `jother` stands for every
other JSON value (null, float, array, nested object) and carries only its
Python truthiness, which is all the reception core ever reads off such
values. -/
inductive JValue where
  | jint (n : Int)
  | jbool (b : Bool)
  | jstr (s : String)
  | jother (pyTruthy : Bool)
  deriving DecidableEq, Repr

/-- Python truthiness of a JSON value. -/
def JValue.truthy : JValue → Bool
  | .jint n => n ≠ 0
  | .jbool b => b
  | .jstr s => s ≠ ""
  | .jother t => t

/-- `isinstance(x, int)` plus the numeric value: Python `bool` is a subclass of
`int`, so `True`/`False` pass the `isinstance` checks as 1/0. -/
def JValue.asInt : JValue → Option Int
  | .jint n => some n
  | .jbool b => some (if b then 1 else 0)
  | _ => none

/-- The value when it is a JSON string. -/
def JValue.asStr : JValue → Option String
  | .jstr s => some s
  | _ => none

/-- A JSON object as produced by `json.loads` (keys are unique: the JSON
library keeps the last occurrence of a duplicated key). -/
abbrev JObject := List (String × JValue)

/-- Dictionary lookup, `data.get(key)` / `key in data`. -/
def jget (fields : JObject) (key : String) : Option JValue :=
  (fields.find? (fun p => p.1 == key)).map (fun p => p.2)

/-- `data.get(key)` coerced to a string when it is one (non-string values of
string-typed metadata fields are outside the wire protocol). -/
def jgetStr (fields : JObject) (key : String) : Option String :=
  (jget fields key).bind JValue.asStr

/-- `data.get(key)` coerced to an integer when it is one. -/
def jgetInt (fields : JObject) (key : String) : Option Int :=
  (jget fields key).bind JValue.asInt

/-! ## `base64.b64decode` (CPython `binascii.a2b_base64`, non-strict mode) -/

/-- Value of a base64 alphabet character. -/
def b64Val (c : Char) : Option Nat :=
  if 'A' ≤ c ∧ c ≤ 'Z' then some (c.toNat - 65)
  else if 'a' ≤ c ∧ c ≤ 'z' then some (c.toNat - 97 + 26)
  else if '0' ≤ c ∧ c ≤ '9' then some (c.toNat - 48 + 52)
  else if c = '+' then some 62
  else if c = '/' then some 63
  else none

/-- The non-strict `a2b_base64` loop: characters outside the alphabet are
skipped; a pad group completing a quad ends decoding; a leftover quad
position at the end is a `binascii.Error` (`none`).  Arguments: input,
quad position (0-3), pending bits, pads seen in the current quad, output
accumulator (reversed). -/
def a2bBase64 : List Char → Nat → Nat → Nat → List Nat → Option (List Nat)
  | [], 0, _, _, acc => some acc.reverse
  | [], _ + 1, _, _, _ => none
  | c :: cs, quadPos, leftchar, pads, acc =>
    if c = '=' then
      if 2 ≤ quadPos then
        if quadPos + (pads + 1) = 4 then some acc.reverse
        else a2bBase64 cs quadPos leftchar (pads + 1) acc
      else a2bBase64 cs quadPos leftchar pads acc
    else
      match b64Val c with
      | none => a2bBase64 cs quadPos leftchar pads acc
      | some v =>
        match quadPos with
        | 0 => a2bBase64 cs 1 v 0 acc
        | 1 => a2bBase64 cs 2 (v % 16) 0 ((leftchar * 4 + v / 16) :: acc)
        | 2 => a2bBase64 cs 3 (v % 4) 0 ((leftchar * 16 + v / 4) :: acc)
        | _ => a2bBase64 cs 0 0 0 ((leftchar * 64 + v) :: acc)

/-- `base64.b64decode` on a Python `str`: the string is first ASCII-encoded
(`ValueError` on non-ASCII), then decoded non-strictly. -/
def pyB64Decode (s : String) : Option (List Nat) :=
  if s.data.all (fun c => c.toNat < 128) then a2bBase64 s.data 0 0 0 [] else none

/-! ## Python `int(str)` (ASCII fragment) -/

/-- Decimal digit value. -/
def digitVal (c : Char) : Option Nat :=
  if '0' ≤ c ∧ c ≤ '9' then some (c.toNat - 48) else none

/-- Digits after the first one; Python allows single underscores between
digits. -/
def digitsCore : List Char → Nat → Option Nat
  | [], acc => some acc
  | c :: cs, acc =>
    if c = '_' then
      match cs with
      | c2 :: cs2 =>
        match digitVal c2 with
        | some d => digitsCore cs2 (acc * 10 + d)
        | none => none
      | [] => none
    else
      match digitVal c with
      | some d => digitsCore cs (acc * 10 + d)
      | none => none

/-- A non-empty digit run (with Python's inner underscores). -/
def pyNatDigits : List Char → Option Nat
  | [] => none
  | c :: cs =>
    match digitVal c with
    | some d => digitsCore cs d
    | none => none

/-- Strip ASCII spaces from both ends (the whitespace actually reachable in
this protocol). -/
def stripSpaces (cs : List Char) : List Char :=
  ((cs.dropWhile (fun c => c = ' ')).reverse.dropWhile (fun c => c = ' ')).reverse

/-- Python `int(s)` on its ASCII decimal fragment: optional surrounding
whitespace, optional sign, non-empty digits. -/
def pyInt (s : String) : Option Int :=
  match stripSpaces s.data with
  | '+' :: rest => (pyNatDigits rest).map (fun n => (n : Int))
  | '-' :: rest => (pyNatDigits rest).map (fun n => -(n : Int))
  | rest => (pyNatDigits rest).map (fun n => (n : Int))

/-- Python `str.lower()` on one character (ASCII fragment; the format tags
and hex digests this is applied to are ASCII). -/
def lowerChar (c : Char) : Char :=
  if 'A' ≤ c ∧ c ≤ 'Z' then Char.ofNat (c.toNat + 32) else c

/-- Python `str.lower()` (ASCII fragment). -/
def strToLower (s : String) : String :=
  String.mk (s.data.map lowerChar)

/-! ## The simple-format regex and `str.split(':')` -/

/-- `c` is a decimal digit (regex `\d` on ASCII input). -/
def isDigitCh (c : Char) : Bool := decide ('0' ≤ c ∧ c ≤ '9')

/-- `c` is not a colon (regex `[^:]`). -/
def notColon (c : Char) : Bool := c ≠ ':'

/-- Consume one or more characters satisfying `p` (maximal munch; for the
runs in the simple-format regex, which are each followed by a character that
cannot satisfy `p`, greedy matching without backtracking is exact). -/
def takeWhile1 (p : Char → Bool) : List Char → Option (List Char × List Char)
  | [] => none
  | c :: cs => if p c then some (c :: cs.takeWhile p, cs.dropWhile p) else none

/-- A literal `:<m>:` marker of the simple-format regex. -/
def expectMarker (m : Char) : List Char → Option (List Char)
  | a :: b :: c :: rest => if a = ':' ∧ b = m ∧ c = ':' then some rest else none
  | _ => none

/-- The detection regex `^F:[^:]+:I:\d+:T:\d+:D:` of `_detect_format`,
returning the captured filename, index digits, total digits and the
remainder after the final `D:` marker. -/
def matchSimple (cs : List Char) : Option (List Char × List Char × List Char × List Char) :=
  match cs with
  | a :: b :: rest =>
    if a = 'F' ∧ b = ':' then
      match takeWhile1 notColon rest with
      | none => none
      | some (name, rest1) =>
        match expectMarker 'I' rest1 with
        | none => none
        | some rest2 =>
          match takeWhile1 isDigitCh rest2 with
          | none => none
          | some (d1, rest3) =>
            match expectMarker 'T' rest3 with
            | none => none
            | some rest4 =>
              match takeWhile1 isDigitCh rest4 with
              | none => none
              | some (d2, rest5) =>
                match expectMarker 'D' rest5 with
                | none => none
                | some rest6 => some (name, d1, d2, rest6)
    else none
  | _ => none

/-- Python `s.split(sep)` for a one-character separator. -/
def splitOnChar (sep : Char) : List Char → List (List Char)
  | [] => [[]]
  | c :: cs =>
    if c = sep then [] :: splitOnChar sep cs
    else
      match splitOnChar sep cs with
      | [] => [[c]]
      | p :: ps => (c :: p) :: ps

/-- Python `sep.join(parts)` for a one-character separator. -/
def joinChar (sep : Char) : List (List Char) → List Char
  | [] => []
  | [p] => p
  | p :: ps => p ++ sep :: joinChar sep ps

/-- The literal simple-format payload
`F:<filename>:I:<index>:T:<total>:D:<data>`. -/
def mkSimple (name d1 d2 rest : List Char) : List Char :=
  'F' :: ':' :: name ++ ':' :: 'I' :: ':' :: d1 ++ ':' :: 'T' :: ':' :: d2 ++
    ':' :: 'D' :: ':' :: rest

/-! ## `ParsedQRData` and the three format parsers -/

/-- `ParsedQRData` of `data_parser.py`.  `chunk_hash` keeps the raw JSON
value, exactly as `data.get("chunk_sha256")` / `data.get("chunk_hash")`
stores it (the engine later tests its truthiness and crashes gracefully on
non-strings).  `raw_data`/`parsed_json` are debug-only and not modelled. -/
structure ParsedQRData where
  chunk_index : Int := -1
  chunk_data : Option (List Nat) := none
  chunk_hash : Option JValue := none
  filename : Option String := none
  total_chunks : Int := 0
  file_size : Option Int := none
  file_hash : Option String := none
  format_version : String := "unknown"
  algorithm : String := "sha256"
  compression_algorithm : Option String := none
  encryption_enabled : Bool := false
  reed_solomon_enabled : Bool := false
  reed_solomon_blocks : Int := 0
  reed_solomon_parity : Int := 0
  is_valid : Bool := false
  error : Option String := none
  deriving DecidableEq, Repr

/-- `_create_error_result`. -/
def errorResult (msg : String) : ParsedQRData :=
  { chunk_index := -1, is_valid := false, error := some msg }

/-- The `required_fields = ["fmt", "index", "total", "data_b64"]` loop shared
by the v2 and v1 parsers (first missing field wins). -/
def requiredFieldError (fields : JObject) : Option String :=
  if (jget fields "fmt").isNone then some "Missing required field: fmt"
  else if (jget fields "index").isNone then some "Missing required field: index"
  else if (jget fields "total").isNone then some "Missing required field: total"
  else if (jget fields "data_b64").isNone then some "Missing required field: data_b64"
  else none

/-- `_parse_qrfile_v2`. -/
def parseQrfileV2 (fields : JObject) : ParsedQRData :=
  match requiredFieldError fields with
  | some msg => errorResult msg
  | none =>
    match ((jget fields "index").getD (.jother false)).asInt with
    | none => errorResult "Invalid chunk index"
    | some chunkIndex =>
      if chunkIndex < 0 then errorResult "Invalid chunk index"
      else
        match ((jget fields "total").getD (.jother false)).asInt with
        | none => errorResult "Invalid total chunks"
        | some totalChunks =>
          if totalChunks ≤ 0 then errorResult "Invalid total chunks"
          else if totalChunks ≤ chunkIndex then errorResult "Chunk index exceeds total"
          else
            match (jget fields "data_b64").getD (.jother false) with
            | .jstr b64 =>
              match pyB64Decode b64 with
              | none => errorResult "Base64 decode error"
              | some bytes =>
                { chunk_index := chunkIndex
                  chunk_data := some bytes
                  chunk_hash := jget fields "chunk_sha256"
                  filename := jgetStr fields "name"
                  total_chunks := totalChunks
                  file_size := jgetInt fields "size"
                  file_hash := jgetStr fields "file_sha256"
                  format_version := "qrfile/v2"
                  algorithm := (jgetStr fields "algo").getD "sha256"
                  compression_algorithm := jgetStr fields "compression_algorithm"
                  encryption_enabled := ((jget fields "encryption_enabled").getD (.jbool false)).truthy
                  reed_solomon_enabled := ((jget fields "rs_enabled").getD (.jbool false)).truthy
                  reed_solomon_blocks := (jgetInt fields "rs_blocks").getD 0
                  reed_solomon_parity := (jgetInt fields "rs_parity").getD 0
                  is_valid := true }
            | _ => errorResult "Base64 decode error"

/-- `_parse_qrfile_v1`: same required fields and sign checks as v2, but — as
in the source — no `chunk_index >= total_chunks` comparison, a different
checksum key (`chunk_hash`), and no compression/encryption/FEC metadata. -/
def parseQrfileV1 (fields : JObject) : ParsedQRData :=
  match requiredFieldError fields with
  | some msg => errorResult msg
  | none =>
    match ((jget fields "index").getD (.jother false)).asInt with
    | none => errorResult "Invalid chunk index"
    | some chunkIndex =>
      if chunkIndex < 0 then errorResult "Invalid chunk index"
      else
        match ((jget fields "total").getD (.jother false)).asInt with
        | none => errorResult "Invalid total chunks"
        | some totalChunks =>
          if totalChunks ≤ 0 then errorResult "Invalid total chunks"
          else
            match (jget fields "data_b64").getD (.jother false) with
            | .jstr b64 =>
              match pyB64Decode b64 with
              | none => errorResult "Base64 decode error"
              | some bytes =>
                { chunk_index := chunkIndex
                  chunk_data := some bytes
                  chunk_hash := jget fields "chunk_hash"
                  filename := jgetStr fields "name"
                  total_chunks := totalChunks
                  file_size := jgetInt fields "size"
                  format_version := "qrfile/v1"
                  algorithm := (jgetStr fields "algo").getD "sha256"
                  reed_solomon_enabled := false
                  is_valid := true }
            | _ => errorResult "Base64 decode error"

/-- `_parse_simple_format`: split on every colon, check the positional
markers, rejoin the data segments after the `D` marker.  An `IndexError` on
`parts[6]` and a `ValueError` from `int(...)` are both caught and produce an
error result. -/
def parseSimpleFormat (s : String) : ParsedQRData :=
  let parts := splitOnChar ':' s.data
  if parts.length < 6 ∨ parts.getD 0 [] ≠ ['F'] ∨ parts.getD 2 [] ≠ ['I'] ∨
      parts.getD 4 [] ≠ ['T'] then
    errorResult "Invalid simple format structure"
  else if parts.length ≤ 6 then
    errorResult "Simple format parse error"
  else if parts.getD 6 [] ≠ ['D'] then
    errorResult "Invalid simple format structure"
  else
    let filename := String.mk (parts.getD 1 [])
    match pyInt (String.mk (parts.getD 3 [])) with
    | none => errorResult "Simple format parse error"
    | some chunkIndex =>
      match pyInt (String.mk (parts.getD 5 [])) with
      | none => errorResult "Simple format parse error"
      | some totalChunks =>
        let dataPart := if 7 < parts.length then joinChar ':' (parts.drop 7)
          else parts.getD 6 []
        match pyB64Decode (String.mk dataPart) with
        | none => errorResult "Base64 decode error"
        | some bytes =>
          { chunk_index := chunkIndex
            chunk_data := some bytes
            filename := some filename
            total_chunks := totalChunks
            format_version := "simple"
            algorithm := "unknown"
            is_valid := true }

/-! ## Format detection and the top-level `parse` -/

/-- The format tags of `QRFormat`. -/
inductive QRFormat where
  | v2
  | v1
  | simple
  | unknown
  deriving DecidableEq, Repr

/-- One QR payload at the parser boundary: either text that `json.loads`
accepts as an object, or any other text. -/
inductive QRInput where
  | jsonObj (fields : JObject)
  | raw (s : String)
  deriving DecidableEq, Repr

/-- `_detect_format`.  A JSON-object payload is classified by its
(lower-cased) `fmt` tag — a non-string tag raises inside the detection
`try` and yields `unknown`, a missing tag compares `""` against the two
known tags and falls through to the regex, which cannot match a text whose
stripped form starts with a brace.  A non-JSON payload is matched against
the simple-format regex. -/
def detectFormat : QRInput → QRFormat
  | .jsonObj fields =>
    match jget fields "fmt" with
    | some (.jstr s) =>
      if strToLower s = "qrfile/v2" then .v2
      else if strToLower s = "qrfile/v1" then .v1
      else .unknown
    | some _ => .unknown
    | none => .unknown
  | .raw s => if (matchSimple s.data).isSome then .simple else .unknown

/-- `QRDataParser.parse`: empty input is rejected first, then the payload is
dispatched on the detected format. -/
def parse (input : QRInput) : ParsedQRData :=
  match input with
  | .raw s =>
    if s = "" then errorResult "Empty or invalid QR data"
    else
      match detectFormat (.raw s) with
      | .simple => parseSimpleFormat s
      | _ => errorResult "Unsupported QR format"
  | .jsonObj fields =>
    match detectFormat (.jsonObj fields) with
    | .v2 => parseQrfileV2 fields
    | .v1 => parseQrfileV1 fields
    | _ => errorResult "Unsupported QR format"

/-! ## Configuration (`core/config.py`) -/

/-- The protocol-configuration fields of `QRReceiverConfig` that concern the
reception core (UI/network fields omitted).  `max_chunks` is defined with
default 10000 — the engine never reads it. -/
structure QRReceiverConfig where
  max_chunks : Int := 10000
  chunk_timeout : Int := 30
  max_concurrent_sessions : Int := 10
  memory_only : Bool := true
  deriving DecidableEq, Repr

/-- `QRReceiverConfig.create_default()`. -/
def defaultConfig : QRReceiverConfig := {}

/-! ## External primitives

`hashlib.sha256(..).hexdigest()`, the md5 session digest, and the optional
compression/encryption/Reed-Solomon libraries are external calls.  They are
gathered in one environment record; every engine-level theorem quantifies
over it (or instantiates it with an explicit stand-in). -/

/-- The external primitives of the reception pipeline. -/
structure ExternalEnv where
  /-- `hashlib.sha256(data).hexdigest()`: 64 lowercase hex characters. -/
  sha256hex : List Nat → String
  /-- the `cryptography` library imported successfully
  (`encryption_handlers["aes-256"]["available"]`). -/
  aesAvailable : Bool
  /-- `reedsolo` imported and `config.reed_solomon_enabled`
  (`self.reed_solomon_decoder is not None`). -/
  rsDecoderAvailable : Bool
  /-- `compression_handlers[algo]["available"]` for the seven known
  algorithm keys. -/
  compressionAvailable : String → Bool
  /-- the library decompression call for a known available algorithm;
  `none` models the library raising. -/
  decompressFn : String → List Nat → Option (List Nat)

/-! ## `ChunkInfo` and `ReceptionSession` -/

/-- `ChunkInfo` of `chunk_assembler.py` (the Reed-Solomon bookkeeping fields
`verified`/`error_corrected`/`rs_*` are never written by the engine and
stay at their defaults; they are omitted). -/
structure ChunkInfo where
  index : Int
  data : Option (List Nat)
  hash : Option JValue := none
  size : Nat := 0
  received_time : Nat
  deriving DecidableEq, Repr

/-- `ReceptionState` of the engine. -/
inductive ReceptionState where
  | idle
  | receiving
  | assembling
  | verifying
  | completed
  | failed
  deriving DecidableEq, Repr

/-- The session identity: `_generate_session_id` joins
`filename-or-"unknown"`, `str(total_chunks)` and `str(file_size or 0)` with
underscores and takes `md5(...)[:16]`.  The join is injective in the three
components (the last two segments are canonical integer strings), so the
key is modelled as the triple itself; md5-truncation collisions are outside
the model. -/
abbrev SessionKey := String × Int × Int

/-- `ReceptionSession`.  `received_chunks` is the Python dict as an
association list in insertion order (keys unique).  `failed_chunks` is the
Python set as a duplicate-free list.  The float display fields are not
modelled. -/
structure ReceptionSession where
  session_id : SessionKey
  filename : String
  total_chunks : Int
  expected_size : Int
  expected_hash : Option String := none
  received_chunks : List (Int × ChunkInfo) := []
  state : ReceptionState := .idle
  start_time : Nat
  last_activity : Nat
  compression_algorithm : Option String := none
  encryption_enabled : Bool := false
  reed_solomon_enabled : Bool := false
  format_version : String := "qrfile/v2"
  bytes_received : Nat := 0
  error_count : Nat := 0
  failed_chunks : List Int := []
  integrity_failures : Nat := 0
  deriving DecidableEq, Repr

/-- Dict lookup in the chunk table (`chunk_index in session.received_chunks`
/ `session.received_chunks[i]`). -/
def lookupChunk (received : List (Int × ChunkInfo)) (i : Int) : Option ChunkInfo :=
  (received.find? (fun p => p.1 == i)).map (fun p => p.2)

/-- Python `set.add`. -/
def setInsert (l : List Int) (i : Int) : List Int :=
  if i ∈ l then l else l ++ [i]

/-- `session.is_complete()`. -/
def isComplete (sess : ReceptionSession) : Bool :=
  (sess.received_chunks.length : Int) == sess.total_chunks

/-! ## Engine responses -/

/-- The result dict of `process_qr_data` (`success`/`message` or
`success=False`/`error`/`details`; the attached status snapshot is a display
rendering of the session and is not duplicated here). -/
inductive EngineResponse where
  | success (message : String)
  | failure (message : String) (details : Option String)
  deriving DecidableEq, Repr

/-! ## Engine internals -/

/-- `_generate_session_id` (see `SessionKey`). -/
def sessionKeyOf (p : ParsedQRData) : SessionKey :=
  (match p.filename with
   | some s => if s = "" then "unknown" else s
   | none => "unknown",
   p.total_chunks,
   p.file_size.getD 0)

/-- The fresh `ReceptionSession(...)` built by `_get_or_create_session`
(state set to `RECEIVING` immediately after construction). -/
def newSessionFor (p : ParsedQRData) (k : SessionKey) (now : Nat) : ReceptionSession :=
  { session_id := k
    filename :=
      match p.filename with
      | some s => if s = "" then "transfer_" ++ toString now ++ ".tar.gz" else s
      | none => "transfer_" ++ toString now ++ ".tar.gz"
    total_chunks := p.total_chunks
    expected_size := p.file_size.getD 0
    expected_hash := p.file_hash
    state := .receiving
    start_time := now
    last_activity := now
    compression_algorithm := p.compression_algorithm
    encryption_enabled := p.encryption_enabled
    reed_solomon_enabled := p.reed_solomon_enabled
    format_version := p.format_version }

/-- `QRReceiverEngine._verify_chunk_integrity`: skipped for empty data or a
falsy hash; a non-string hash raises inside the `try` and verification
returns `False`; otherwise the **lowercase** hexdigest is truncated to the
expected length and compared **case-sensitively**. -/
def verifyChunkIntegrity (env : ExternalEnv) (p : ParsedQRData) : Bool :=
  match p.chunk_data with
  | none => true
  | some d =>
    if d = [] then true
    else
      match p.chunk_hash with
      | none => true
      | some hv =>
        if ¬ hv.truthy then true
        else
          match hv with
          | .jstr expected => (env.sha256hex d).take expected.length == expected
          | _ => false

/-- `QRReceiverEngine._process_chunk`: duplicate check first, then (when a
truthy checksum is present) integrity verification, then storage with byte
accounting.  The engine-level `stats` dict is analytics-only and omitted. -/
def processChunk (env : ExternalEnv) (sess : ReceptionSession) (p : ParsedQRData)
    (now : Nat) : EngineResponse × ReceptionSession :=
  let i := p.chunk_index
  if (lookupChunk sess.received_chunks i).isSome then
    (.success "Duplicate chunk ignored", sess)
  else
    let hashTruthy :=
      match p.chunk_hash with
      | some hv => hv.truthy
      | none => false
    if hashTruthy && ¬ verifyChunkIntegrity env p then
      (.failure "Chunk integrity verification failed" none,
        { sess with
            integrity_failures := sess.integrity_failures + 1
            failed_chunks := setInsert sess.failed_chunks i })
    else
      let size :=
        match p.chunk_data with
        | some d => if d = [] then 0 else d.length
        | none => 0
      let ci : ChunkInfo :=
        { index := i, data := p.chunk_data, hash := p.chunk_hash, size := size,
          received_time := now }
      (.success ("Chunk " ++ toString i ++ " received"),
        { sess with
            received_chunks := sess.received_chunks ++ [(i, ci)]
            bytes_received := sess.bytes_received + size })

/-! ## Assembler (`chunk_assembler.py`) -/

/-- `_validate_chunks`: the received count must equal `total_chunks` and no
index of `range(total_chunks)` may be missing.  The per-chunk integrity loop
that follows only appends warnings ("Reed-Solomon might fix this") and never
changes the result, so it is not repeated here. -/
def validateChunks (sess : ReceptionSession) : Bool :=
  ((sess.received_chunks.length : Int) == sess.total_chunks) &&
    (List.range sess.total_chunks.toNat).all
      (fun n => (lookupChunk sess.received_chunks (n : Int)).isSome)

/-- `sorted(session.received_chunks.items())`: Python tuple comparison by
the (unique) integer key. -/
def sortChunks (l : List (Int × ChunkInfo)) : List (Int × ChunkInfo) :=
  l.insertionSort (fun a b => a.1 ≤ b.1)

instance : IsTotal (Int × ChunkInfo) (fun a b => a.1 ≤ b.1) :=
  ⟨fun a b => le_total a.1 b.1⟩

instance : IsTrans (Int × ChunkInfo) (fun a b => a.1 ≤ b.1) :=
  ⟨fun _ _ _ hab hbc => le_trans hab hbc⟩

instance : IsAntisymm (Int × ChunkInfo) (fun a b => a.1 < b.1) :=
  ⟨fun a b h1 h2 => absurd (lt_trans h1 h2) (lt_irrefl _)⟩

/-- `_assemble_chunks`: write the chunks in ascending index order; a `None`
chunk body would raise in the write loop and the `except` returns `None`. -/
def assembleChunks (sess : ReceptionSession) : Option (List Nat) :=
  ((sortChunks sess.received_chunks).mapM
    (fun pc : Int × ChunkInfo => pc.2.data)).map List.flatten

/-- `_apply_reed_solomon_correction`: the inner `try` reads
`session.reed_solomon_blocks`, a field `ReceptionSession` does not define;
the `AttributeError` is caught by the inner `except` and the uncorrected
data is returned with a warning — on every call. -/
def applyReedSolomonCorrection (data : List Nat) : Option (List Nat) :=
  some data

/-- `_decrypt_data`: fails when the `cryptography` library is unavailable;
otherwise it is the source's placeholder, which logs
"Decryption not fully implemented - returning raw data" and returns the
input bytes unchanged. -/
def decryptData (env : ExternalEnv) (data : List Nat) : Option (List Nat) :=
  if ¬ env.aesAvailable then none
  else some data

/-- The keys of `compression_handlers`. -/
def knownCompression : List String :=
  ["lzma", "brotli", "zstandard", "lz4", "gzip", "bz2", "store"]

/-- `_decompress_data`: unknown or unavailable algorithms fail; a library
exception is caught and fails the stage. -/
def decompressData (env : ExternalEnv) (algo : String) (data : List Nat) :
    Option (List Nat) :=
  if algo ∉ knownCompression then none
  else if ¬ env.compressionAvailable algo then none
  else env.decompressFn algo data

/-- `if not assembled_data:` after each stage: `None` and the empty byte
string are both falsy and fail the assembly. -/
def stageOk : Option (List Nat) → Option (List Nat)
  | none => none
  | some d => if d = [] then none else some d

/-- `ChunkAssembler.assemble_file`: validate, assemble, then the optional
Reed-Solomon / decrypt / decompress stages in the source's order, each
followed by the falsy check.  (Progress callbacks and the stats dict are
display-only.) -/
def assembleFile (env : ExternalEnv) (sess : ReceptionSession) : Option (List Nat) :=
  if ¬ validateChunks sess then none
  else
    match stageOk (assembleChunks sess) with
    | none => none
    | some d0 =>
      match stageOk (if sess.reed_solomon_enabled && env.rsDecoderAvailable then
          applyReedSolomonCorrection d0 else some d0) with
      | none => none
      | some d1 =>
        match stageOk (if sess.encryption_enabled then decryptData env d1
            else some d1) with
        | none => none
        | some d2 =>
          let doDecompress :=
            match sess.compression_algorithm with
            | some a => a != "" && a != "store"
            | none => false
          stageOk (if doDecompress then
              decompressData env (sess.compression_algorithm.getD "") d2
            else some d2)

/-! ## Completion and the engine state -/

/-- `QRReceiverEngine._verify_file_integrity`: skipped without an expected
hash (`""` is falsy); a truncated expected hash is compared against the
hexdigest prefix, both case-sensitively. -/
def verifyFileIntegrity (env : ExternalEnv) (sess : ReceptionSession)
    (d : List Nat) : Bool :=
  match sess.expected_hash with
  | none => true
  | some expected =>
    if expected = "" then true
    else
      let actual := env.sha256hex d
      if expected.length < actual.length then actual.take expected.length == expected
      else actual == expected

/-- `QRReceiverEngine._complete_session` on one session: assemble, verify,
mark `COMPLETED`/`FAILED`.  `_save_file` is terminal I/O (skipped in the
default `memory_only` mode) and does not change the session. -/
def completeSession (env : ExternalEnv) (sess : ReceptionSession) : ReceptionSession :=
  let sess := { sess with state := .verifying }
  match assembleFile env sess with
  | some d =>
    if d = [] then { sess with state := .failed }
    else if verifyFileIntegrity env sess d then { sess with state := .completed }
    else { sess with state := .failed }
  | none => { sess with state := .failed }

/-- The engine's two session tables (Python dicts as association lists in
insertion order; callbacks and stats are display-only). -/
structure EngineState where
  active_sessions : List (SessionKey × ReceptionSession) := []
  completed_sessions : List (SessionKey × ReceptionSession) := []
  deriving DecidableEq, Repr

/-- The empty engine state at construction. -/
def initState : EngineState := {}

/-- Dict lookup in a session table. -/
def lookupSession (l : List (SessionKey × ReceptionSession)) (k : SessionKey) :
    Option ReceptionSession :=
  (l.find? (fun p => p.1 == k)).map (fun p => p.2)

/-- Dict assignment `table[k] = s`: replace in place, or append a new key. -/
def insertSession (l : List (SessionKey × ReceptionSession)) (k : SessionKey)
    (s : ReceptionSession) : List (SessionKey × ReceptionSession) :=
  if (l.find? (fun p => p.1 == k)).isSome then
    l.map (fun p => if p.1 == k then (k, s) else p)
  else l ++ [(k, s)]

/-- Dict deletion `del table[k]`. -/
def eraseSession (l : List (SessionKey × ReceptionSession)) (k : SessionKey) :
    List (SessionKey × ReceptionSession) :=
  l.filter (fun p => ¬ p.1 == k)

/-- `QRReceiverEngine._get_or_create_session`: return the table's session for
the frame's key, or a fresh `ReceptionSession` when none exists (the caller
stores it back). -/
def getSession (st : EngineState) (p : ParsedQRData) (now : Nat) : ReceptionSession :=
  match lookupSession st.active_sessions (sessionKeyOf p) with
  | some s => s
  | none => newSessionFor p (sessionKeyOf p) now

/-- `QRReceiverEngine.process_qr_data`: parse; on failure return the error
response untouched; otherwise look up or create the session
(`_get_or_create_session`, factored as `getSession`), apply the chunk,
update the activity timestamp (`update_progress`; its float fields are
display-only), and when the session is now complete run
`_complete_session`, which moves it from the active to the completed
table. -/
def processQrData (env : ExternalEnv) (st : EngineState) (input : QRInput)
    (now : Nat) : EngineResponse × EngineState :=
  let p := parse input
  if ¬ p.is_valid then
    (.failure "Invalid QR data format" p.error, st)
  else
    let k := sessionKeyOf p
    let sess := getSession st p now
    let r := processChunk env sess p now
    let sess2 := { r.2 with last_activity := now }
    if isComplete sess2 then
      let sessF := completeSession env sess2
      (r.1, { active_sessions := eraseSession st.active_sessions k
              completed_sessions := insertSession st.completed_sessions k sessF })
    else
      (r.1, { st with active_sessions := insertSession st.active_sessions k sess2 })

/-- A whole engine run: process a list of timestamped payloads in order. -/
def runEngine (env : ExternalEnv) (st : EngineState) :
    List (QRInput × Nat) → EngineState
  | [] => st
  | (q, t) :: rest => runEngine env (processQrData env st q t).2 rest

/-- Session-level frame application: fold `_process_chunk` over timestamped
frames (the per-session part of `process_qr_data`, without the registry). -/
def applyFrames (env : ExternalEnv) (sess : ReceptionSession) :
    List (ParsedQRData × Nat) → ReceptionSession
  | [] => sess
  | (p, t) :: rest => applyFrames env (processChunk env sess p t).2 rest

/-! ## Concrete fixtures for closed statements

The closed theorems below run the model on explicit inputs.  The only byte
string they ever hash is `b"A" = [65]`, whose sha256 hexdigest is the
constant recorded here, so a constant function is a faithful stand-in for
the external `hashlib` primitive on these runs. -/

/-- `hashlib.sha256(b"A").hexdigest()`. -/
def sha256hexOfA : String :=
  "559aead08264d5795d3909718cdd05abd49572e84fe55590eef31a88a08fdffd"

/-- Environment for the concrete runs: the hash primitive answers with the
digest of `b"A"`, the `cryptography` library is present, the optional
compression/FEC libraries are absent. -/
def stdEnv : ExternalEnv :=
  { sha256hex := fun _ => sha256hexOfA
    aesAvailable := true
    rsDecoderAvailable := false
    compressionAvailable := fun a => a == "gzip" || a == "bz2" || a == "store"
    decompressFn := fun _ _ => none }

/-- A session that already holds chunk 0 (= `b"A"`). -/
def dupSession : ReceptionSession :=
  { session_id := ("a", 1, 0)
    filename := "a"
    total_chunks := 1
    expected_size := 0
    received_chunks := [(0, { index := 0, data := some [65], size := 1, received_time := 1 })]
    state := .receiving
    start_time := 0
    last_activity := 1
    bytes_received := 1 }

/-- A frame re-supplying chunk 0 of `dupSession`. -/
def dupFrame : ParsedQRData :=
  { chunk_index := 0
    chunk_data := some [65]
    filename := some "a"
    total_chunks := 1
    format_version := "simple"
    algorithm := "unknown"
    is_valid := true }

/-- A frame for chunk 0 of `dupSession` whose checksum does not match its
own bytes. -/
def dupBadHashFrame : ParsedQRData :=
  { dupFrame with chunk_hash := some (.jstr "0000000000000000") }

/-- A completed session whose metadata declares encryption: all chunks
present (total 1, chunk 0 = ciphertext `b"XYZ"`), no key material anywhere
in the model (`ReceptionSession` has no key field at all). -/
def encSession : ReceptionSession :=
  { session_id := ("secret.bin", 1, 0)
    filename := "secret.bin"
    total_chunks := 1
    expected_size := 0
    received_chunks := [(0, { index := 0, data := some [88, 89, 90], size := 3, received_time := 0 })]
    state := .receiving
    start_time := 0
    last_activity := 0
    encryption_enabled := true
    bytes_received := 3 }

/-- A valid v2 frame declaring one more chunk than the configured default
ceiling `max_chunks = 10000`. -/
def overTotalPayload : QRInput :=
  .jsonObj [("fmt", .jstr "qrfile/v2"), ("name", .jstr "big.bin"), ("index", .jint 0),
            ("total", .jint 10001), ("data_b64", .jstr "QQ==")]

/-- A v1 payload whose index (2) is not below its total (1). -/
def v1OutOfRangePayload : QRInput :=
  .jsonObj [("fmt", .jstr "qrfile/v1"), ("name", .jstr "a"), ("index", .jint 2),
            ("total", .jint 1), ("data_b64", .jstr "QQ==")]

/-- Two simple-format frames declaring `total = 0` with indices 1 and 2
(the simple-format digits admit a zero total and are never compared against
it). -/
def zeroTotalRun : List (QRInput × Nat) :=
  [(.raw "F:a:I:1:T:0:D:QQ==", 0), (.raw "F:a:I:2:T:0:D:QQ==", 1)]

/-- A fresh one-chunk session. -/
def freshSess : ReceptionSession :=
  { session_id := ("a", 1, 0)
    filename := "a"
    total_chunks := 1
    expected_size := 0
    state := .receiving
    start_time := 0
    last_activity := 0 }

/-- A frame for chunk `b"A"` whose expected checksum is the **uppercase**
form of the correct 16-hex-character prefix of the true digest. -/
def upperHashFrame : ParsedQRData :=
  { chunk_index := 0
    chunk_data := some [65]
    chunk_hash := some (.jstr "559AEAD08264D579")
    filename := some "a"
    total_chunks := 1
    format_version := "qrfile/v2"
    is_valid := true }

/-- The same frame with the correct lowercase 16-hex-character digest
prefix. -/
def lowerHashFrame : ParsedQRData :=
  { upperHashFrame with chunk_hash := some (.jstr "559aead08264d579") }

/-- The numeric value of a decimal digit string. -/
def digitsToNat (d : List Char) : Nat :=
  d.foldl (fun a c => a * 10 + (c.toNat - 48)) 0

/-- A checksum-free frame (what the simple format and checksum-free v1/v2
payloads produce): index, bytes and identity metadata only. -/
def plainFrame (name : String) (total i : Int) (d : List Nat) : ParsedQRData :=
  { chunk_index := i
    chunk_data := some d
    filename := some name
    total_chunks := total
    format_version := "simple"
    algorithm := "unknown"
    is_valid := true }

/-- A fresh three-chunk session. -/
def freshSess3 : ReceptionSession :=
  { session_id := ("w", 3, 0)
    filename := "w"
    total_chunks := 3
    expected_size := 0
    state := .receiving
    start_time := 0
    last_activity := 0 }

/-- A one-frame v2 run: chunk 0 of 2 for file `"a"`. -/
def v2Run : List (QRInput × Nat) :=
  [(.jsonObj [("fmt", .jstr "qrfile/v2"), ("name", .jstr "a"), ("index", .jint 0),
              ("total", .jint 2), ("data_b64", .jstr "QQ==")], 0)]

/-- The session created by `v2Run` (looked up in the resulting active
table; the default is never used). -/
def v2RunSession : ReceptionSession :=
  (lookupSession (runEngine stdEnv initState v2Run).active_sessions ("a", 2, 0)).getD freshSess

/-- The first stored chunk entry of `v2RunSession` (the default is never
used). -/
def v2RunEntry : Int × ChunkInfo :=
  v2RunSession.received_chunks.getD 0 (-1, { index := -1, data := none, received_time := 0 })

/-- The session-table invariants established for the reachable engine
states: active sessions carry their key's declared total and, when that
total is positive, strictly fewer stored chunks than the total; completed
sessions hold at most their total; every stored index is non-negative. -/
def EngineInv (st : EngineState) : Prop :=
  (∀ pr ∈ st.active_sessions, pr.1.2.1 = pr.2.total_chunks) ∧
  (∀ pr ∈ st.active_sessions, 0 < pr.2.total_chunks →
    (pr.2.received_chunks.length : Int) < pr.2.total_chunks) ∧
  (∀ pr ∈ st.completed_sessions, 0 < pr.2.total_chunks →
    (pr.2.received_chunks.length : Int) ≤ pr.2.total_chunks) ∧
  (∀ pr ∈ st.active_sessions ++ st.completed_sessions,
    ∀ e ∈ pr.2.received_chunks, 0 ≤ e.1)

/-- The stronger index bound that holds when only v2-parsed frames are
accepted: every stored index lies below its session's declared total. -/
def EngineInvV2 (st : EngineState) : Prop :=
  ∀ pr ∈ st.active_sessions ++ st.completed_sessions,
    ∀ e ∈ pr.2.received_chunks, e.1 < pr.2.total_chunks

/-! ## C9 — parse failure leaves the session state untouched -/

/-- C9: for every payload on which parsing fails, `process_qr_data` returns
the structured error response and the engine state — both session tables and
every session in them — is returned unchanged. -/
theorem parse_failure_leaves_state_untouched (env : ExternalEnv) (st : EngineState)
    (input : QRInput) (now : Nat) (h : (parse input).is_valid = false) :
    processQrData env st input now =
      (.failure "Invalid QR data format" (parse input).error, st) := by
  unfold processQrData
  simp [h]

/-- Witness for C9 at the unparseable payload `"hello"`. -/
theorem parse_failure_leaves_state_untouched_witness :
    processQrData stdEnv initState (.raw "hello") 0 =
      (.failure "Invalid QR data format" (some "Unsupported QR format"), initState) := by
  have h := parse_failure_leaves_state_untouched stdEnv initState (.raw "hello") 0 (by decide)
  rw [h]
  decide

/-! ## C6 — duplicate frames are ignored idempotently -/

/-- C6: a frame whose index is already stored returns the duplicate-ignored
response and the session — chunk table, byte counter, integrity counters,
failed-chunk set, everything — is unchanged; iterating the application any
number of times is the identity on the session. -/
theorem duplicate_frame_idempotent (env : ExternalEnv) (sess : ReceptionSession)
    (p : ParsedQRData) (now : Nat)
    (h : (lookupChunk sess.received_chunks p.chunk_index).isSome = true) :
    processChunk env sess p now = (.success "Duplicate chunk ignored", sess) ∧
    ∀ n : Nat, (fun s => (processChunk env s p now).2)^[n] sess = sess := by
  have hstep : processChunk env sess p now = (.success "Duplicate chunk ignored", sess) := by
    unfold processChunk
    simp [h]
  refine ⟨hstep, fun n => Function.iterate_fixed ?_ n⟩
  simp [hstep]

/-- Witness for C6: re-applying the already-stored chunk 0 three times. -/
theorem duplicate_frame_idempotent_witness :
    processChunk stdEnv dupSession dupFrame 5 = (.success "Duplicate chunk ignored", dupSession) ∧
    (fun s => (processChunk stdEnv s dupFrame 5).2)^[3] dupSession = dupSession := by
  have h := duplicate_frame_idempotent stdEnv dupSession dupFrame 5 (by decide)
  exact ⟨h.1, h.2 3⟩

/-! ## C10 — the duplicate check precedes integrity verification -/

/-- C10: for a frame whose index is already stored, the duplicate branch
returns before the checksum is ever examined, so even a mismatching checksum
leaves the integrity-failure counter and the failed-chunk set (and the whole
session) unchanged. -/
theorem duplicate_check_precedes_verification (env : ExternalEnv)
    (sess : ReceptionSession) (p : ParsedQRData) (now : Nat)
    (hdup : (lookupChunk sess.received_chunks p.chunk_index).isSome = true)
    (hbad : verifyChunkIntegrity env p = false) :
    (processChunk env sess p now).1 = .success "Duplicate chunk ignored" ∧
    (processChunk env sess p now).2.integrity_failures = sess.integrity_failures ∧
    (processChunk env sess p now).2.failed_chunks = sess.failed_chunks := by
  unfold processChunk
  simp [hdup]

/-- Witness for C10: a duplicate frame carrying a checksum that mismatches
its own bytes. -/
theorem duplicate_check_precedes_verification_witness :
    (processChunk stdEnv dupSession dupBadHashFrame 5).1 = .success "Duplicate chunk ignored" ∧
    (processChunk stdEnv dupSession dupBadHashFrame 5).2.integrity_failures = 0 ∧
    (processChunk stdEnv dupSession dupBadHashFrame 5).2.failed_chunks = [] := by
  have h := duplicate_check_precedes_verification stdEnv dupSession dupBadHashFrame 5
    (by decide) (by decide)
  exact ⟨h.1, h.2.1.trans (by decide), h.2.2.trans (by decide)⟩

/-! ## C1 — the decrypt stage is a pass-through stub -/

/-- C1 (code bug): with the `cryptography` library available and encryption
declared, `_decrypt_data` returns the assembled ciphertext unchanged,
`assemble_file` hands exactly those bytes onward, and `_complete_session`
marks the session `COMPLETED` — no hard failure for the missing key
material ever happens. -/
theorem decrypt_stage_passes_ciphertext_through :
    decryptData stdEnv [88, 89, 90] = some [88, 89, 90] ∧
    assembleFile stdEnv encSession = some [88, 89, 90] ∧
    (completeSession stdEnv encSession).state = .completed := by
  decide

/-! ## C2 — `config.max_chunks` is never enforced -/

/-- C2 (code bug): `_get_or_create_session` performs no capacity check —
a frame whose declared total exceeds `QRReceiverConfig.max_chunks` still
creates a session, stores it in the active table and retains the chunk. -/
theorem no_capacity_check_at_session_creation :
    defaultConfig.max_chunks = 10000 ∧
    (processQrData stdEnv initState overTotalPayload 0).1 = .success "Chunk 0 received" ∧
    (lookupSession (processQrData stdEnv initState overTotalPayload 0).2.active_sessions
        ("big.bin", 10001, 0)).map
      (fun s => (s.total_chunks, s.received_chunks.length)) = some (10001, 1) := by
  decide

/-! ## C3 — counterexample: the v1 parser accepts `index ≥ total` -/

/-- Counterexample to C3: the v1 parser returns a **valid** frame with
`chunk_index = 2` and `total_chunks = 1`, violating the claimed
`index < total` validation. -/
theorem v1_accepts_index_not_below_total :
    (parse v1OutOfRangePayload).is_valid = true ∧
    (parse v1OutOfRangePayload).chunk_index = 2 ∧
    (parse v1OutOfRangePayload).total_chunks = 1 := by
  decide

/-! ## C4 — counterexample: out-of-range indices and an oversize table -/

/-- Counterexample to C4: after this reachable run the active table holds a
session with `total_chunks = 0` whose chunk table has 2 entries (> total)
storing indices 1 and 2, none of which lies in `[0, total)`. -/
theorem reachable_session_breaks_chunk_invariants :
    (lookupSession (runEngine stdEnv initState zeroTotalRun).active_sessions ("a", 0, 0)).map
      (fun s => (s.total_chunks, s.received_chunks.map (fun e => e.1))) = some (0, [1, 2]) := by
  decide

/-! ## C5 — counterexample: checksum comparison is case-sensitive -/

/-- Counterexample to C5: the expected value is the correct 16-character
prefix of the true digest up to letter case, yet the engine rejects the
frame, does not store the chunk, increments the integrity-failure counter
and records the index in the failed-chunk set — the comparison in
`_verify_chunk_integrity` is case-sensitive. -/
theorem uppercase_checksum_prefix_rejected :
    sha256hexOfA.take 16 = "559aead08264d579" ∧
    strToLower "559AEAD08264D579" = "559aead08264d579" ∧
    processChunk stdEnv freshSess upperHashFrame 0 =
      (.failure "Chunk integrity verification failed" none,
       { freshSess with integrity_failures := 1, failed_chunks := [0] }) := by
  decide

/-! ## C8 — counterexample: the simple wire format has more fields -/

/-- Counterexample to C8: the payload `F:0:2:QQ==` — the claimed literal
`F:<index>:<total>:<base64>` — is **not** recognized (the regex requires
`F:<filename>:I:<index>:T:<total>:D:<data>`), while the actual simple
format parses and **does** carry file metadata: the filename. -/
theorem simple_format_literal_refuted :
    (parse (.raw "F:0:2:QQ==")).is_valid = false ∧
    (parse (.raw "F:0:2:QQ==")).error = some "Unsupported QR format" ∧
    (parse (.raw "F:a:I:0:T:2:D:QQ==")).is_valid = true ∧
    (parse (.raw "F:a:I:0:T:2:D:QQ==")).filename = some "a" := by
  decide

/-! ## Toolkit: the simple-format regex against `str.split(':')` -/

/-- What a successful `takeWhile1` match tells us about its input. -/
theorem takeWhile1_sound {p : Char → Bool} {cs tk rest : List Char}
    (h : takeWhile1 p cs = some (tk, rest)) :
    cs = tk ++ rest ∧ tk ≠ [] ∧ ∀ x ∈ tk, p x = true := by
  cases cs with
  | nil => simp [takeWhile1] at h
  | cons c cs =>
    by_cases hc : p c
    · simp only [takeWhile1, if_pos hc, Option.some.injEq, Prod.mk.injEq] at h
      obtain ⟨htk, hrest⟩ := h
      subst htk
      subst hrest
      refine ⟨by simp [List.takeWhile_append_dropWhile], by simp, ?_⟩
      intro x hx
      rcases List.mem_cons.mp hx with hx | hx
      · exact hx ▸ hc
      · exact List.mem_takeWhile_imp hx
    · simp [takeWhile1, if_neg hc] at h

/-- `takeWhile`/`dropWhile` on a run of `p`-characters followed by a
non-`p` boundary. -/
theorem takeWhile_of_all {p : Char → Bool} :
    ∀ (tk rest : List Char), (∀ x ∈ tk, p x = true) →
      (∀ y ∈ rest.head?, p y = false) →
      (tk ++ rest).takeWhile p = tk ∧ (tk ++ rest).dropWhile p = rest := by
  intro tk
  induction tk with
  | nil =>
    intro rest _ hrest
    cases rest with
    | nil => simp
    | cons y ys =>
      have hy : p y = false := hrest y (by simp)
      simp [List.takeWhile_cons, List.dropWhile_cons, hy]
  | cons a tk ih =>
    intro rest hall hrest
    have pa : p a = true := hall a (by simp)
    have h := ih rest (fun x hx => hall x (List.mem_cons_of_mem _ hx)) hrest
    simp [List.takeWhile_cons, List.dropWhile_cons, pa, h.1, h.2]

/-- `takeWhile1` on a non-empty run followed by a non-`p` boundary. -/
theorem takeWhile1_append {p : Char → Bool} (tk rest : List Char)
    (hne : tk ≠ []) (hall : ∀ x ∈ tk, p x = true)
    (hrest : ∀ y ∈ rest.head?, p y = false) :
    takeWhile1 p (tk ++ rest) = some (tk, rest) := by
  cases tk with
  | nil => exact absurd rfl hne
  | cons a tk =>
    have pa : p a = true := hall a (by simp)
    have h := takeWhile_of_all tk rest (fun x hx => hall x (List.mem_cons_of_mem _ hx)) hrest
    simp [takeWhile1, pa, h.1, h.2]

/-- What a successful marker match tells us about its input. -/
theorem expectMarker_sound {m : Char} {cs rest : List Char}
    (h : expectMarker m cs = some rest) : cs = ':' :: m :: ':' :: rest := by
  unfold expectMarker at h
  split at h
  · split at h
    · next hc =>
      obtain ⟨h1, h2, h3⟩ := hc
      simp only [Option.some.injEq] at h
      subst h1
      subst h2
      subst h3
      subst h
      rfl
    · simp at h
  · simp at h

/-- A marker matches its own literal shape. -/
theorem expectMarker_mk (m : Char) (rest : List Char) :
    expectMarker m (':' :: m :: ':' :: rest) = some rest := by
  simp [expectMarker]

/-- Soundness of the regex matcher: a match decomposes the payload into the
`F:<filename>:I:<index>:T:<total>:D:<data>` shape. -/
theorem matchSimple_sound {cs name d1 d2 rest : List Char}
    (h : matchSimple cs = some (name, d1, d2, rest)) :
    cs = mkSimple name d1 d2 rest ∧
    name ≠ [] ∧ (∀ x ∈ name, notColon x = true) ∧
    d1 ≠ [] ∧ (∀ x ∈ d1, isDigitCh x = true) ∧
    d2 ≠ [] ∧ (∀ x ∈ d2, isDigitCh x = true) := by
  unfold matchSimple at h
  split at h
  case h_2 => simp at h
  case h_1 a b rest0 =>
    split at h
    case isFalse => simp at h
    case isTrue hab =>
      obtain ⟨ha, hb⟩ := hab
      subst ha
      subst hb
      split at h
      case h_1 => simp at h
      case h_2 nm rest1 heq1 =>
        obtain ⟨e1, hne1, hall1⟩ := takeWhile1_sound heq1
        split at h
        case h_1 => simp at h
        case h_2 rest2 heq2 =>
          have e2 := expectMarker_sound heq2
          split at h
          case h_1 => simp at h
          case h_2 dd1 rest3 heq3 =>
            obtain ⟨e3, hne3, hall3⟩ := takeWhile1_sound heq3
            split at h
            case h_1 => simp at h
            case h_2 rest4 heq4 =>
              have e4 := expectMarker_sound heq4
              split at h
              case h_1 => simp at h
              case h_2 dd2 rest5 heq5 =>
                obtain ⟨e5, hne5, hall5⟩ := takeWhile1_sound heq5
                split at h
                case h_1 => simp at h
                case h_2 rest6 heq6 =>
                  have e6 := expectMarker_sound heq6
                  simp only [Option.some.injEq, Prod.mk.injEq] at h
                  obtain ⟨hn, hd1, hd2, hr⟩ := h
                  subst hn
                  subst hd1
                  subst hd2
                  subst hr
                  refine ⟨?_, hne1, hall1, hne3, hall3, hne5, hall5⟩
                  rw [e1, e2, e3, e4, e5, e6]
                  simp [mkSimple]

/-- Completeness of the regex matcher on a well-formed simple payload. -/
theorem matchSimple_mk {name d1 d2 rest : List Char}
    (hn : name ≠ []) (hcn : ∀ x ∈ name, notColon x = true)
    (h1 : d1 ≠ []) (hd1 : ∀ x ∈ d1, isDigitCh x = true)
    (h2 : d2 ≠ []) (hd2 : ∀ x ∈ d2, isDigitCh x = true) :
    matchSimple (mkSimple name d1 d2 rest) = some (name, d1, d2, rest) := by
  have e : mkSimple name d1 d2 rest =
      'F' :: ':' ::
        (name ++ ':' :: 'I' :: ':' ::
          (d1 ++ ':' :: 'T' :: ':' :: (d2 ++ ':' :: 'D' :: ':' :: rest))) := by
    simp [mkSimple]
  rw [e]
  simp only [matchSimple]
  rw [if_pos ⟨trivial, trivial⟩]
  rw [takeWhile1_append name _ hn hcn (by intro y hy; simp at hy; subst hy; decide)]
  simp only [expectMarker_mk]
  rw [takeWhile1_append d1 _ h1 hd1 (by intro y hy; simp at hy; subst hy; decide)]
  simp only [expectMarker_mk]
  rw [takeWhile1_append d2 _ h2 hd2 (by intro y hy; simp at hy; subst hy; decide)]
  simp only [expectMarker_mk]

/-- `splitOnChar` never returns the empty list. -/
theorem splitOnChar_ne_nil (sep : Char) (cs : List Char) : splitOnChar sep cs ≠ [] := by
  cases cs with
  | nil => simp [splitOnChar]
  | cons c cs =>
    unfold splitOnChar
    by_cases h : c = sep
    · simp [h]
    · simp only [if_neg h]
      split <;> simp

/-- `str.split(sep)` across a separator-free prefix. -/
theorem splitOnChar_append (sep : Char) (xs ys : List Char)
    (h : ∀ x ∈ xs, x ≠ sep) :
    splitOnChar sep (xs ++ sep :: ys) = xs :: splitOnChar sep ys := by
  induction xs with
  | nil => simp [splitOnChar]
  | cons a xs ih =>
    have ha : a ≠ sep := h a (by simp)
    have ih' := ih (fun x hx => h x (List.mem_cons_of_mem _ hx))
    show splitOnChar sep (a :: (xs ++ sep :: ys)) = (a :: xs) :: splitOnChar sep ys
    simp only [splitOnChar]
    rw [if_neg ha, ih']

/-- `sep.join` inverts `split(sep)`. -/
theorem joinChar_splitOnChar (sep : Char) (cs : List Char) :
    joinChar sep (splitOnChar sep cs) = cs := by
  induction cs with
  | nil => simp [splitOnChar, joinChar]
  | cons c cs ih =>
    unfold splitOnChar
    by_cases h : c = sep
    · subst h
      simp only [if_pos rfl]
      cases hs : splitOnChar c cs with
      | nil => exact absurd hs (splitOnChar_ne_nil _ _)
      | cons p ps =>
        rw [hs] at ih
        simp [joinChar, ih]
    · simp only [if_neg h]
      cases hs : splitOnChar sep cs with
      | nil => exact absurd hs (splitOnChar_ne_nil _ _)
      | cons p ps =>
        rw [hs] at ih
        cases ps with
        | nil => simpa [joinChar] using ih
        | cons q qs =>
          simp only [joinChar] at ih ⊢
          simp [← ih]

/-- A digit's `digitVal`. -/
theorem digitVal_of_digit {c : Char} (h : isDigitCh c = true) :
    digitVal c = some (c.toNat - 48) := by
  unfold isDigitCh at h
  unfold digitVal
  rw [if_pos (of_decide_eq_true h)]

/-- Digits are not underscores, colons or spaces. -/
theorem digit_ne {c : Char} (h : isDigitCh c = true) :
    c ≠ '_' ∧ c ≠ ':' ∧ c ≠ ' ' ∧ c ≠ '+' ∧ c ≠ '-' := by
  unfold isDigitCh at h
  have hb := of_decide_eq_true h
  refine ⟨?_, ?_, ?_, ?_, ?_⟩ <;> (rintro rfl; revert hb; decide)

/-- `digitsCore` on an all-digit tail accumulates the decimal value. -/
theorem digitsCore_digits :
    ∀ (l : List Char) (acc : Nat), (∀ x ∈ l, isDigitCh x = true) →
      digitsCore l acc = some (l.foldl (fun a c => a * 10 + (c.toNat - 48)) acc) := by
  intro l
  induction l with
  | nil => intro acc _; simp [digitsCore]
  | cons c cs ih =>
    intro acc hall
    have hc : isDigitCh c = true := hall c (by simp)
    have hne : c ≠ '_' := (digit_ne hc).1
    unfold digitsCore
    rw [if_neg hne, digitVal_of_digit hc]
    simp only [List.foldl_cons]
    exact ih _ (fun x hx => hall x (List.mem_cons_of_mem _ hx))

/-- `pyNatDigits` on a non-empty all-digit run. -/
theorem pyNatDigits_digits {l : List Char} (hne : l ≠ [])
    (hall : ∀ x ∈ l, isDigitCh x = true) :
    pyNatDigits l = some (digitsToNat l) := by
  cases l with
  | nil => exact absurd rfl hne
  | cons c cs =>
    have hc : isDigitCh c = true := hall c (by simp)
    simp only [pyNatDigits]
    rw [digitVal_of_digit hc]
    show digitsCore cs (c.toNat - 48) = some (digitsToNat (c :: cs))
    rw [digitsCore_digits cs _ (fun x hx => hall x (List.mem_cons_of_mem _ hx))]
    simp [digitsToNat]

/-- `dropWhile` strips nothing when the head does not satisfy `p`. -/
theorem dropWhile_eq_self_of_head {p : Char → Bool} {l : List Char}
    (h : ∀ y ∈ l.head?, p y = false) : l.dropWhile p = l := by
  cases l with
  | nil => rfl
  | cons y ys =>
    have hy : p y = false := h y (by simp)
    simp [List.dropWhile_cons, hy]

/-- `int(str)` on a non-empty decimal digit run. -/
theorem pyInt_digits {l : List Char} (hne : l ≠ [])
    (hall : ∀ x ∈ l, isDigitCh x = true) :
    pyInt (String.mk l) = some (digitsToNat l : Int) := by
  have hstrip : stripSpaces l = l := by
    unfold stripSpaces
    have h1 : l.dropWhile (fun c => c = ' ') = l := by
      apply dropWhile_eq_self_of_head
      intro y hy
      have hmem : y ∈ l := List.mem_of_mem_head? hy
      exact decide_eq_false (digit_ne (hall y hmem)).2.2.1
    have h2 : l.reverse.dropWhile (fun c => c = ' ') = l.reverse := by
      apply dropWhile_eq_self_of_head
      intro y hy
      have hmem : y ∈ l := List.mem_reverse.mp (List.mem_of_mem_head? hy)
      exact decide_eq_false (digit_ne (hall y hmem)).2.2.1
    rw [h1, h2, List.reverse_reverse]
  show pyInt ⟨l⟩ = some (digitsToNat l : Int)
  unfold pyInt
  simp only [hstrip]
  cases l with
  | nil => exact absurd rfl hne
  | cons c cs =>
    have hc := hall c (by simp)
    have hplus : c ≠ '+' := (digit_ne hc).2.2.2.1
    have hminus : c ≠ '-' := (digit_ne hc).2.2.2.2
    split
    case h_1 rest heq => rw [List.cons.injEq] at heq; exact absurd heq.1 hplus
    case h_2 rest heq => rw [List.cons.injEq] at heq; exact absurd heq.1 hminus
    case h_3 =>
      rw [pyNatDigits_digits hne hall]
      rfl

/-- Evaluation of `_parse_simple_format` on a regex-shaped payload: the
positional checks pass, the filename and the decimal index/total are taken
from the split, and the data segment is the verbatim remainder after the
`D:` marker (re-joined on embedded colons). -/
theorem parseSimpleFormat_mk (s : String) (name d1 d2 rest : List Char)
    (hs : s.data = mkSimple name d1 d2 rest)
    (hcn : ∀ x ∈ name, notColon x = true)
    (h1 : d1 ≠ []) (hd1 : ∀ x ∈ d1, isDigitCh x = true)
    (h2 : d2 ≠ []) (hd2 : ∀ x ∈ d2, isDigitCh x = true) :
    parseSimpleFormat s =
      match pyB64Decode (String.mk rest) with
      | none => errorResult "Base64 decode error"
      | some bytes =>
        { chunk_index := (digitsToNat d1 : Int)
          chunk_data := some bytes
          filename := some (String.mk name)
          total_chunks := (digitsToNat d2 : Int)
          format_version := "simple"
          algorithm := "unknown"
          is_valid := true } := by
  have hcolon_name : ∀ x ∈ name, x ≠ ':' := by
    intro x hx
    have h := hcn x hx
    unfold notColon at h
    exact of_decide_eq_true h
  have hdig_ne : ∀ (d : List Char), (∀ x ∈ d, isDigitCh x = true) → ∀ x ∈ d, x ≠ ':' :=
    fun d hd x hx => (digit_ne (hd x hx)).2.1
  have e : mkSimple name d1 d2 rest =
      ['F'] ++ ':' :: (name ++ ':' :: (['I'] ++ ':' :: (d1 ++ ':' :: (['T'] ++ ':' ::
        (d2 ++ ':' :: (['D'] ++ ':' :: rest)))))) := by
    simp [mkSimple]
  have hparts : splitOnChar ':' s.data =
      ['F'] :: name :: ['I'] :: d1 :: ['T'] :: d2 :: ['D'] :: splitOnChar ':' rest := by
    rw [hs, e]
    rw [splitOnChar_append ':' ['F'] _ (by decide)]
    rw [splitOnChar_append ':' name _ hcolon_name]
    rw [splitOnChar_append ':' ['I'] _ (by decide)]
    rw [splitOnChar_append ':' d1 _ (hdig_ne d1 hd1)]
    rw [splitOnChar_append ':' ['T'] _ (by decide)]
    rw [splitOnChar_append ':' d2 _ (hdig_ne d2 hd2)]
    rw [splitOnChar_append ':' ['D'] _ (by decide)]
  have hlen : 0 < (splitOnChar ':' rest).length :=
    List.length_pos.mpr (splitOnChar_ne_nil _ _)
  simp only [parseSimpleFormat]
  rw [hparts]
  rw [if_neg (by
    push_neg
    refine ⟨?_, rfl, rfl, rfl⟩
    simp only [List.length_cons]
    omega)]
  rw [if_neg (by
    simp only [List.length_cons]
    omega)]
  have g6 : (['F'] :: name :: ['I'] :: d1 :: ['T'] :: d2 :: ['D'] ::
      splitOnChar ':' rest).getD 6 [] = ['D'] := rfl
  rw [if_neg (not_not_intro g6)]
  have g1 : (['F'] :: name :: ['I'] :: d1 :: ['T'] :: d2 :: ['D'] ::
      splitOnChar ':' rest).getD 1 [] = name := rfl
  have g3 : (['F'] :: name :: ['I'] :: d1 :: ['T'] :: d2 :: ['D'] ::
      splitOnChar ':' rest).getD 3 [] = d1 := rfl
  have g5 : (['F'] :: name :: ['I'] :: d1 :: ['T'] :: d2 :: ['D'] ::
      splitOnChar ':' rest).getD 5 [] = d2 := rfl
  rw [g1, g3, g5]
  rw [pyInt_digits h1 hd1, pyInt_digits h2 hd2]
  rw [if_pos (by
    simp only [List.length_cons]
    omega)]
  have gdrop : (['F'] :: name :: ['I'] :: d1 :: ['T'] :: d2 :: ['D'] ::
      splitOnChar ':' rest).drop 7 = splitOnChar ':' rest := rfl
  rw [gdrop, joinChar_splitOnChar]

/-- A detected simple-format payload is non-empty. -/
theorem detect_simple_ne_empty {s : String} (hdet : detectFormat (.raw s) = .simple) :
    s ≠ "" := by
  intro h
  subst h
  exact absurd hdet (by decide)

/-- `parse` dispatches a detected simple-format payload to
`_parse_simple_format`. -/
theorem parse_raw_eq_simple {s : String} (hdet : detectFormat (.raw s) = .simple) :
    parse (.raw s) = parseSimpleFormat s := by
  simp only [parse]
  rw [if_neg (detect_simple_ne_empty hdet), hdet]

/-! ## C8 — the amended simple-format characterization -/

/-- C8 (amended): a payload is recognized and parsed as the simple wire
format exactly when it matches `F:<filename>:I:<index>:T:<total>:D:<data>`
— filename non-empty and colon-free, index and total non-empty digit runs.
The data segment is the verbatim remainder after the `D:` marker (not split
on embedded colons) and must decode from base64; the parsed frame carries
that index, total, decoded chunk bytes **and the filename**, with no
integrity metadata. -/
theorem simple_format_characterization :
    (∀ name d1 d2 rest : List Char,
        name ≠ [] → (∀ x ∈ name, notColon x = true) →
        d1 ≠ [] → (∀ x ∈ d1, isDigitCh x = true) →
        d2 ≠ [] → (∀ x ∈ d2, isDigitCh x = true) →
        detectFormat (.raw (String.mk (mkSimple name d1 d2 rest))) = .simple ∧
        parse (.raw (String.mk (mkSimple name d1 d2 rest))) =
          (match pyB64Decode (String.mk rest) with
           | none => errorResult "Base64 decode error"
           | some bytes =>
             { chunk_index := (digitsToNat d1 : Int)
               chunk_data := some bytes
               filename := some (String.mk name)
               total_chunks := (digitsToNat d2 : Int)
               format_version := "simple"
               algorithm := "unknown"
               is_valid := true })) ∧
    (∀ s : String, detectFormat (.raw s) = .simple →
        ∃ name d1 d2 rest : List Char,
          s.data = mkSimple name d1 d2 rest ∧ name ≠ [] ∧
          (∀ x ∈ name, notColon x = true) ∧ d1 ≠ [] ∧
          (∀ x ∈ d1, isDigitCh x = true) ∧ d2 ≠ [] ∧
          (∀ x ∈ d2, isDigitCh x = true)) := by
  constructor
  · intro name d1 d2 rest hn hcn h1 hd1 h2 hd2
    have hdet : detectFormat (.raw (String.mk (mkSimple name d1 d2 rest))) = .simple := by
      have hsome : (matchSimple (mkSimple name d1 d2 rest)).isSome = true := by
        rw [matchSimple_mk hn hcn h1 hd1 h2 hd2]
        rfl
      simp only [detectFormat]
      simp [hsome]
    refine ⟨hdet, ?_⟩
    rw [parse_raw_eq_simple hdet]
    exact parseSimpleFormat_mk _ name d1 d2 rest rfl hcn h1 hd1 h2 hd2
  · intro s hdet
    simp only [detectFormat] at hdet
    by_cases hm : (matchSimple s.data).isSome
    · obtain ⟨⟨name, d1, d2, rest⟩, heq⟩ := Option.isSome_iff_exists.mp hm
      obtain ⟨hs, hn, hcn, h1, hd1, h2, hd2⟩ := matchSimple_sound heq
      exact ⟨name, d1, d2, rest, hs, hn, hcn, h1, hd1, h2, hd2⟩
    · rw [if_neg hm] at hdet
      exact absurd hdet (by decide)

/-- Witness for C8 at `F:a:I:0:T:2:D:QkI=`. -/
theorem simple_format_characterization_witness :
    detectFormat (.raw "F:a:I:0:T:2:D:QkI=") = .simple ∧
    parse (.raw "F:a:I:0:T:2:D:QkI=") =
      { chunk_index := 0
        chunk_data := some [66, 66]
        filename := some "a"
        total_chunks := 2
        format_version := "simple"
        algorithm := "unknown"
        is_valid := true } := by
  have h := simple_format_characterization.1 ['a'] ['0'] ['2'] "QkI=".data
    (by decide) (by decide) (by decide) (by decide) (by decide) (by decide)
  obtain ⟨hdet, hparse⟩ := h
  have e : String.mk (mkSimple ['a'] ['0'] ['2'] "QkI=".data) = "F:a:I:0:T:2:D:QkI=" := by
    decide
  rw [e] at hdet hparse
  refine ⟨hdet, ?_⟩
  rw [hparse]
  decide

/-! ## Helpers: branch analysis of the v2 and v1 parsers -/

/-- The v2 parser validates everything the spec lists: a valid result has a
non-negative index, a positive total, `index < total`, decoded chunk bytes,
and is tagged `qrfile/v2`. -/
theorem parseQrfileV2_valid (fields : JObject) :
    (parseQrfileV2 fields).is_valid = true →
    0 ≤ (parseQrfileV2 fields).chunk_index ∧
    0 < (parseQrfileV2 fields).total_chunks ∧
    (parseQrfileV2 fields).chunk_index < (parseQrfileV2 fields).total_chunks ∧
    (parseQrfileV2 fields).chunk_data.isSome = true ∧
    (parseQrfileV2 fields).format_version = "qrfile/v2" := by
  unfold parseQrfileV2
  repeat' split
  all_goals intro h
  all_goals simp_all [errorResult]

/-- The v1 parser checks sign and positivity (but **not** `index < total`):
a valid result has a non-negative index, a positive total, decoded chunk
bytes, and is tagged `qrfile/v1`. -/
theorem parseQrfileV1_valid (fields : JObject) :
    (parseQrfileV1 fields).is_valid = true →
    0 ≤ (parseQrfileV1 fields).chunk_index ∧
    0 < (parseQrfileV1 fields).total_chunks ∧
    (parseQrfileV1 fields).chunk_data.isSome = true ∧
    (parseQrfileV1 fields).format_version = "qrfile/v1" := by
  unfold parseQrfileV1
  repeat' split
  all_goals intro h
  all_goals simp_all [errorResult]

/-- A JSON-object payload is never detected as the simple format. -/
theorem detect_jsonObj_ne_simple (fields : JObject) :
    detectFormat (.jsonObj fields) ≠ .simple := by
  simp only [detectFormat]
  split
  · split
    · simp
    · split <;> simp
  · simp
  · simp

/-- A valid frame parsed from a raw (simple-format) payload has a
non-negative index, a non-negative total, decoded bytes, and is tagged
`simple`. -/
theorem parse_raw_valid (s : String) (h : (parse (.raw s)).is_valid = true) :
    0 ≤ (parse (.raw s)).chunk_index ∧ 0 ≤ (parse (.raw s)).total_chunks ∧
    (parse (.raw s)).chunk_data.isSome = true ∧
    (parse (.raw s)).format_version = "simple" := by
  by_cases hempty : s = ""
  · rw [hempty] at h
    exact absurd h (by decide)
  cases hdet : detectFormat (.raw s) with
  | simple =>
    obtain ⟨name, d1, d2, rest, hs, hn, hcn, h1, hd1, h2, hd2⟩ :=
      simple_format_characterization.2 s hdet
    have hp : parse (.raw s) = parseSimpleFormat s := parse_raw_eq_simple hdet
    have hev := parseSimpleFormat_mk s name d1 d2 rest hs hcn h1 hd1 h2 hd2
    rw [hp, hev] at h ⊢
    cases hb : pyB64Decode (String.mk rest) with
    | none =>
      rw [hb] at h
      simp [errorResult] at h
    | some bytes =>
      exact ⟨Int.natCast_nonneg _, Int.natCast_nonneg _, rfl, rfl⟩
  | unknown =>
    have hp : parse (.raw s) = errorResult "Unsupported QR format" := by
      simp only [parse]
      rw [if_neg hempty, hdet]
    rw [hp] at h
    exact absurd h (by decide)
  | v2 =>
    have hp : parse (.raw s) = errorResult "Unsupported QR format" := by
      simp only [parse]
      rw [if_neg hempty, hdet]
    rw [hp] at h
    exact absurd h (by decide)
  | v1 =>
    have hp : parse (.raw s) = errorResult "Unsupported QR format" := by
      simp only [parse]
      rw [if_neg hempty, hdet]
    rw [hp] at h
    exact absurd h (by decide)

/-! ## C3 — the amended per-format validation -/

/-- C3 (amended): every valid frame has a non-negative index and decoded
chunk bytes; the **v2** format additionally guarantees a positive total and
`index < total`; the **v1** format guarantees a positive total but not
`index < total`; the **simple** format guarantees only a non-negative total
(zero totals and `index ≥ total` are accepted). -/
theorem parse_validation_characterization (input : QRInput)
    (h : (parse input).is_valid = true) :
    0 ≤ (parse input).chunk_index ∧
    (parse input).chunk_data.isSome = true ∧
    ((parse input).format_version = "qrfile/v2" →
      0 < (parse input).total_chunks ∧
      (parse input).chunk_index < (parse input).total_chunks) ∧
    ((parse input).format_version = "qrfile/v1" →
      0 < (parse input).total_chunks) ∧
    ((parse input).format_version = "simple" →
      0 ≤ (parse input).total_chunks) := by
  cases input with
  | jsonObj fields =>
    cases hdet : detectFormat (.jsonObj fields) with
    | v2 =>
      have hp : parse (.jsonObj fields) = parseQrfileV2 fields := by
        simp only [parse]
        rw [hdet]
      rw [hp] at h ⊢
      obtain ⟨a, b, c, d, e⟩ := parseQrfileV2_valid fields h
      refine ⟨a, d, fun _ => ⟨b, c⟩, fun hv => ?_, fun hv => ?_⟩
      · rw [e] at hv
        exact absurd hv (by decide)
      · rw [e] at hv
        exact absurd hv (by decide)
    | v1 =>
      have hp : parse (.jsonObj fields) = parseQrfileV1 fields := by
        simp only [parse]
        rw [hdet]
      rw [hp] at h ⊢
      obtain ⟨a, b, c, d⟩ := parseQrfileV1_valid fields h
      refine ⟨a, c, fun hv => ?_, fun _ => b, fun hv => ?_⟩
      · rw [d] at hv
        exact absurd hv (by decide)
      · rw [d] at hv
        exact absurd hv (by decide)
    | simple => exact absurd hdet (detect_jsonObj_ne_simple fields)
    | unknown =>
      have hp : parse (.jsonObj fields) = errorResult "Unsupported QR format" := by
        simp only [parse]
        rw [hdet]
      rw [hp] at h
      exact absurd h (by decide)
  | raw s =>
    obtain ⟨a, b, c, d⟩ := parse_raw_valid s h
    refine ⟨a, c, fun hv => ?_, fun hv => ?_, fun _ => b⟩
    · rw [d] at hv
      exact absurd hv (by decide)
    · rw [d] at hv
      exact absurd hv (by decide)

/-- Witness for C3 at a fully-validated v2 payload. -/
theorem parse_validation_characterization_witness :
    0 ≤ (parse overTotalPayload).chunk_index ∧
    (parse overTotalPayload).chunk_data.isSome = true ∧
    ((parse overTotalPayload).format_version = "qrfile/v2" →
      0 < (parse overTotalPayload).total_chunks ∧
      (parse overTotalPayload).chunk_index < (parse overTotalPayload).total_chunks) ∧
    ((parse overTotalPayload).format_version = "qrfile/v1" →
      0 < (parse overTotalPayload).total_chunks) ∧
    ((parse overTotalPayload).format_version = "simple" →
      0 ≤ (parse overTotalPayload).total_chunks) :=
  parse_validation_characterization overTotalPayload (by decide)

/-! ## C5 — the amended checksum rule -/

/-- C5 (amended): a frame carrying a (non-empty, string) checksum for a new
index with non-empty chunk bytes is compared by truncated-prefix **exact**
(case-sensitive) match against the lowercase sha256 hexdigest: when the
expected value equals the digest prefix of its own length the chunk is
accepted and stored with byte accounting; otherwise — including a correct
prefix in the wrong letter case — the frame is rejected, the chunk is not
stored, the integrity-failure counter is incremented, and the index is
added to the failed-chunk set. -/
theorem checksum_prefix_match_rule (env : ExternalEnv) (sess : ReceptionSession)
    (p : ParsedQRData) (now : Nat) (h : String) (d : List Nat)
    (hnew : (lookupChunk sess.received_chunks p.chunk_index).isSome = false)
    (hhash : p.chunk_hash = some (.jstr h)) (hne : h ≠ "")
    (hdata : p.chunk_data = some d) (hd : d ≠ []) :
    ((env.sha256hex d).take h.length = h →
      processChunk env sess p now =
        (.success ("Chunk " ++ toString p.chunk_index ++ " received"),
         { sess with
             received_chunks := sess.received_chunks ++
               [(p.chunk_index,
                 { index := p.chunk_index, data := some d, hash := some (.jstr h),
                   size := d.length, received_time := now })]
             bytes_received := sess.bytes_received + d.length })) ∧
    ((env.sha256hex d).take h.length ≠ h →
      processChunk env sess p now =
        (.failure "Chunk integrity verification failed" none,
         { sess with
             integrity_failures := sess.integrity_failures + 1
             failed_chunks := setInsert sess.failed_chunks p.chunk_index })) := by
  have htruthy : JValue.truthy (.jstr h) = true := by
    simp [JValue.truthy, hne]
  have hverify : verifyChunkIntegrity env p =
      ((env.sha256hex d).take h.length == h) := by
    unfold verifyChunkIntegrity
    rw [hdata, hhash]
    show (if d = [] then true
      else if ¬ (JValue.jstr h).truthy = true then true
      else ((env.sha256hex d).take h.length == h)) = _
    rw [if_neg hd, if_neg (not_not_intro htruthy)]
  constructor
  · intro hmatch
    have hverT : verifyChunkIntegrity env p = true := by
      rw [hverify]
      exact beq_iff_eq.mpr hmatch
    unfold processChunk
    simp [hnew, hhash, htruthy, hverT, hdata, hd]
  · intro hmiss
    have hverF : verifyChunkIntegrity env p = false := by
      rw [hverify]
      exact beq_eq_false_iff_ne.mpr hmiss
    unfold processChunk
    simp [hnew, hhash, htruthy, hverF]

/-- Witness for C5: the correct lowercase 16-hex-character digest prefix is
accepted and the chunk stored with its byte accounting. -/
theorem checksum_prefix_match_rule_witness :
    (processChunk stdEnv freshSess lowerHashFrame 0).1 = .success "Chunk 0 received" ∧
    lookupChunk (processChunk stdEnv freshSess lowerHashFrame 0).2.received_chunks 0 =
      some { index := 0, data := some [65], hash := some (.jstr "559aead08264d579"),
             size := 1, received_time := 0 } ∧
    (processChunk stdEnv freshSess lowerHashFrame 0).2.bytes_received = 1 := by
  have h := (checksum_prefix_match_rule stdEnv freshSess lowerHashFrame 0
    "559aead08264d579" [65] (by decide) (by decide) (by decide) (by decide)
    (by decide)).1 (by decide)
  rw [h]
  decide

/-! ## Toolkit: storing checksum-free frames and sorting the chunk table -/

/-- A checksum-free frame at a fresh index is stored with byte accounting. -/
theorem processChunk_plain (env : ExternalEnv) (sess : ReceptionSession)
    (name : String) (total i : Int) (d : List Nat) (now : Nat)
    (hnew : lookupChunk sess.received_chunks i = none) :
    (processChunk env sess (plainFrame name total i d) now).2 =
      { sess with
          received_chunks := sess.received_chunks ++
            [(i, { index := i, data := some d, hash := none,
                   size := if d = [] then 0 else d.length, received_time := now })]
          bytes_received := sess.bytes_received + (if d = [] then 0 else d.length) } := by
  unfold processChunk plainFrame
  simp [hnew]

/-- Appending a chunk at a different key does not make a lookup succeed. -/
theorem lookupChunk_append_ne (r : List (Int × ChunkInfo)) (i : Int) (ci : ChunkInfo)
    (j : Int) (h1 : lookupChunk r j = none) (h2 : j ≠ i) :
    lookupChunk (r ++ [(i, ci)]) j = none := by
  unfold lookupChunk at h1 ⊢
  rw [List.find?_append]
  rcases hf : r.find? (fun p => p.1 == j) with _ | q
  · rw [hf]
    simp [List.find?, beq_eq_false_iff_ne.mpr (Ne.symm h2)]
  · rw [hf] at h1
    simp at h1

/-- Folding a list of fresh checksum-free frames appends one chunk per
frame, in arrival order. -/
theorem applyFrames_stores (env : ExternalEnv) (name : String) (total : Int)
    (c : Nat → List Nat) (τ : Nat → Nat) :
    ∀ (l : List Nat) (sess : ReceptionSession), l.Nodup →
      (∀ i ∈ l, lookupChunk sess.received_chunks (i : Int) = none) →
      (applyFrames env sess
          (l.map (fun (i : Nat) => (plainFrame name total (i : Int) (c i), τ i)))).received_chunks =
        sess.received_chunks ++ l.map (fun (i : Nat) => ((i : Int),
          ({ index := (i : Int), data := some (c i), hash := none,
             size := if c i = [] then 0 else (c i).length,
             received_time := τ i } : ChunkInfo))) := by
  intro l
  induction l with
  | nil =>
    intro sess _ _
    simp [applyFrames]
  | cons a l ih =>
    intro sess hnd hfresh
    simp only [List.map_cons, applyFrames]
    have hstep := processChunk_plain env sess name total (a : Int) (c a) (τ a)
      (hfresh a (by simp))
    rw [hstep]
    have hfresh2 : ∀ i ∈ l,
        lookupChunk ({ sess with
          received_chunks := sess.received_chunks ++
            [((a : Int),
              { index := (a : Int), data := some (c a), hash := none,
                size := if c a = [] then 0 else (c a).length,
                received_time := τ a })]
          bytes_received := sess.bytes_received +
            (if c a = [] then 0 else (c a).length) } :
          ReceptionSession).received_chunks (i : Int) = none := by
      intro i hi
      apply lookupChunk_append_ne
      · exact hfresh i (List.mem_cons_of_mem _ hi)
      · intro hcontra
        have hia : i = a := by exact_mod_cast hcontra
        exact (List.nodup_cons.mp hnd).1 (hia ▸ hi)
    rw [ih _ (List.nodup_cons.mp hnd).2 hfresh2]
    simp [plainFrame]

/-- Sorted-by-`≤` with distinct keys means sorted-by-`<`. -/
theorem pairwise_lt_of_sorted_le {l : List (Int × ChunkInfo)}
    (hs : l.Pairwise (fun a b => a.1 ≤ b.1)) (hn : (l.map Prod.fst).Nodup) :
    l.Pairwise (fun a b => a.1 < b.1) := by
  induction l with
  | nil => exact List.Pairwise.nil
  | cons x l ih =>
    rw [List.pairwise_cons] at hs ⊢
    rw [List.map_cons, List.nodup_cons] at hn
    refine ⟨fun b hb => lt_of_le_of_ne (hs.1 b hb) ?_, ih hs.2 hn.2⟩
    intro hcontra
    exact hn.1 (hcontra ▸ List.mem_map_of_mem Prod.fst hb)

/-- Sorting entries keyed by a permutation of `range t` yields the entries
in ascending key order. -/
theorem sortChunks_map_range (f : Nat → ChunkInfo) (t : Nat) (l : List Nat)
    (hp : l.Perm (List.range t)) :
    sortChunks (l.map (fun (i : Nat) => ((i : Int), f i))) =
      (List.range t).map (fun (i : Nat) => ((i : Int), f i)) := by
  have hperm : (sortChunks (l.map (fun (i : Nat) => ((i : Int), f i)))).Perm
      ((List.range t).map (fun (i : Nat) => ((i : Int), f i))) :=
    (List.perm_insertionSort _ _).trans (hp.map _)
  have hs1 : (sortChunks (l.map (fun (i : Nat) => ((i : Int), f i)))).Pairwise
      (fun a b => a.1 ≤ b.1) := List.sorted_insertionSort _ _
  have hkeyR : (((List.range t).map (fun (i : Nat) => ((i : Int), f i))).map Prod.fst).Nodup := by
    rw [List.map_map]
    exact (List.nodup_range t).map Nat.cast_injective
  have hkeys : ((sortChunks (l.map (fun (i : Nat) => ((i : Int), f i)))).map Prod.fst).Nodup :=
    ((hperm.map Prod.fst).nodup_iff).mpr hkeyR
  have hlt1 := pairwise_lt_of_sorted_le hs1 hkeys
  have hlt2 : ((List.range t).map (fun (i : Nat) => ((i : Int), f i))).Pairwise
      (fun a b => a.1 < b.1) := by
    refine List.Pairwise.map _ (fun a b hab => ?_) (List.pairwise_lt_range t)
    show (a : Int) < (b : Int)
    exact_mod_cast hab
  exact List.eq_of_perm_of_sorted hperm hlt1 hlt2

/-- `mapM` over mapped entries whose projection always succeeds. -/
theorem mapM_map_entries {α β γ : Type} (h : α → γ) (e : α → β) (f : β → Option γ) :
    ∀ (l : List α), (∀ a ∈ l, f (e a) = some (h a)) →
      (l.map e).mapM f = some (l.map h) := by
  intro l
  induction l with
  | nil => intro _; rfl
  | cons a l ih =>
    intro hfe
    rw [List.map_cons, List.mapM_cons]
    rw [hfe a (by simp), ih (fun b hb => hfe b (List.mem_cons_of_mem _ hb))]
    rfl

/-! ## C7 — order-independent assembly -/

/-- C7: for every positive total `t` and every permutation `l` of the
indices `[0, t)`, feeding the `t` checksum-free frames in that order into a
fresh session makes `_assemble_chunks` produce exactly the concatenation of
the chunk byte strings in ascending index order — independent of the
arrival order `l`. -/
theorem assembly_order_independent (env : ExternalEnv) (sess : ReceptionSession)
    (name : String) (t : Nat) (l : List Nat) (c : Nat → List Nat) (τ : Nat → Nat)
    (ht : 0 < t) (hperm : l.Perm (List.range t))
    (hempty : sess.received_chunks = []) :
    assembleChunks (applyFrames env sess
        (l.map (fun (i : Nat) => (plainFrame name (t : Int) (i : Int) (c i), τ i)))) =
      some (((List.range t).map c).flatten) := by
  have hnd : l.Nodup := hperm.nodup_iff.mpr (List.nodup_range t)
  have hrec := applyFrames_stores env name (t : Int) c τ l sess hnd
    (by intro i hi; rw [hempty]; rfl)
  unfold assembleChunks
  rw [hrec, hempty, List.nil_append]
  rw [sortChunks_map_range (fun (i : Nat) =>
    ({ index := (i : Int), data := some (c i), hash := none,
       size := if c i = [] then 0 else (c i).length, received_time := τ i } : ChunkInfo)) t l hperm]
  rw [mapM_map_entries c (fun (i : Nat) => ((i : Int),
      ({ index := (i : Int), data := some (c i), hash := none,
         size := if c i = [] then 0 else (c i).length,
         received_time := τ i } : ChunkInfo)))
    (fun pc => pc.2.data) (List.range t) (fun a _ => rfl)]
  rfl

/-- Witness for C7: three frames `b"A"`, `b"B"`, `b"C"` arriving in the
order 2, 0, 1 assemble to `b"ABC"`. -/
theorem assembly_order_independent_witness :
    assembleChunks (applyFrames stdEnv freshSess3
        ([2, 0, 1].map (fun (i : Nat) => (plainFrame "w" 3 (i : Int) [65 + i], i)))) =
      some [65, 66, 67] := by
  have h := assembly_order_independent stdEnv freshSess3 "w" 3 [2, 0, 1]
    (fun i => [65 + i]) (fun i => i) (by decide) (by decide) (by decide)
  exact h.trans (by decide)

/-! ## Toolkit: session tables and the chunk-application shape -/

/-- Members of a dict after assignment: the assigned pair or an old one. -/
theorem mem_insertSession {l : List (SessionKey × ReceptionSession)} {k : SessionKey}
    {s : ReceptionSession} {pr : SessionKey × ReceptionSession}
    (hp : pr ∈ insertSession l k s) : pr = (k, s) ∨ pr ∈ l := by
  unfold insertSession at hp
  split at hp
  · obtain ⟨q, hq, hqe⟩ := List.mem_map.mp hp
    by_cases hqk : q.1 == k
    · rw [if_pos hqk] at hqe
      exact Or.inl hqe.symm
    · rw [if_neg hqk] at hqe
      exact Or.inr (hqe ▸ hq)
  · rcases List.mem_append.mp hp with h | h
    · exact Or.inr h
    · exact Or.inl (by simpa using h)

/-- Members survive a deletion. -/
theorem mem_eraseSession {l : List (SessionKey × ReceptionSession)} {k : SessionKey}
    {pr : SessionKey × ReceptionSession} (hp : pr ∈ eraseSession l k) : pr ∈ l :=
  List.mem_of_mem_filter hp

/-- A successful table lookup pairs the key with a member. -/
theorem lookupSession_mem {l : List (SessionKey × ReceptionSession)} {k : SessionKey}
    {s : ReceptionSession} (h : lookupSession l k = some s) : (k, s) ∈ l := by
  unfold lookupSession at h
  rcases hf : l.find? (fun p => p.1 == k) with _ | q
  · rw [hf] at h
    simp at h
  · rw [hf] at h
    simp only [Option.map_some', Option.some.injEq] at h
    have hq : (q.1 == k) = true := by
      have hq0 := List.find?_some hf
      simpa using hq0
    have hmem := List.mem_of_find?_eq_some hf
    have hq1 : q.1 = k := eq_of_beq hq
    have : q = (k, s) := by
      cases q
      simp only at hq1 h
      rw [hq1, h]
    exact this ▸ hmem

/-- `_process_chunk` never changes the declared total. -/
theorem processChunk_total (env : ExternalEnv) (sess : ReceptionSession)
    (p : ParsedQRData) (now : Nat) :
    (processChunk env sess p now).2.total_chunks = sess.total_chunks := by
  simp only [processChunk]
  repeat' split
  all_goals rfl

/-- `_process_chunk` either leaves the chunk table unchanged (duplicate or
integrity rejection) or appends exactly the frame's index. -/
theorem processChunk_shape (env : ExternalEnv) (sess : ReceptionSession)
    (p : ParsedQRData) (now : Nat) :
    (processChunk env sess p now).2.received_chunks = sess.received_chunks ∨
    ∃ ci : ChunkInfo, (processChunk env sess p now).2.received_chunks =
      sess.received_chunks ++ [(p.chunk_index, ci)] := by
  simp only [processChunk]
  repeat' split
  all_goals first
  | exact Or.inl rfl
  | exact Or.inr ⟨_, rfl⟩

/-- `_complete_session` only rewrites the state field. -/
theorem completeSession_fields (env : ExternalEnv) (sess : ReceptionSession) :
    (completeSession env sess).total_chunks = sess.total_chunks ∧
    (completeSession env sess).received_chunks = sess.received_chunks := by
  simp only [completeSession]
  repeat' split
  all_goals exact ⟨rfl, rfl⟩

/-- Every valid frame, in every format, carries a non-negative index. -/
theorem parse_valid_index_nonneg (q : QRInput) (h : (parse q).is_valid = true) :
    0 ≤ (parse q).chunk_index := by
  cases q with
  | jsonObj fields =>
    cases hdet : detectFormat (.jsonObj fields) with
    | v2 =>
      have hp : parse (.jsonObj fields) = parseQrfileV2 fields := by
        simp only [parse]
        rw [hdet]
      rw [hp] at h ⊢
      exact (parseQrfileV2_valid fields h).1
    | v1 =>
      have hp : parse (.jsonObj fields) = parseQrfileV1 fields := by
        simp only [parse]
        rw [hdet]
      rw [hp] at h ⊢
      exact (parseQrfileV1_valid fields h).1
    | simple => exact absurd hdet (detect_jsonObj_ne_simple fields)
    | unknown =>
      have hp : parse (.jsonObj fields) = errorResult "Unsupported QR format" := by
        simp only [parse]
        rw [hdet]
      rw [hp] at h
      exact absurd h (by decide)
  | raw s => exact (parse_raw_valid s h).1

/-- A valid frame tagged `qrfile/v2` has its index strictly below its
total. -/
theorem parse_valid_v2_bound (q : QRInput) (h : (parse q).is_valid = true)
    (hfmt : (parse q).format_version = "qrfile/v2") :
    (parse q).chunk_index < (parse q).total_chunks := by
  cases q with
  | jsonObj fields =>
    cases hdet : detectFormat (.jsonObj fields) with
    | v2 =>
      have hp : parse (.jsonObj fields) = parseQrfileV2 fields := by
        simp only [parse]
        rw [hdet]
      rw [hp] at h ⊢
      exact (parseQrfileV2_valid fields h).2.2.1
    | v1 =>
      have hp : parse (.jsonObj fields) = parseQrfileV1 fields := by
        simp only [parse]
        rw [hdet]
      rw [hp] at h hfmt
      rw [(parseQrfileV1_valid fields h).2.2.2] at hfmt
      exact absurd hfmt (by decide)
    | simple => exact absurd hdet (detect_jsonObj_ne_simple fields)
    | unknown =>
      have hp : parse (.jsonObj fields) = errorResult "Unsupported QR format" := by
        simp only [parse]
        rw [hdet]
      rw [hp] at h
      exact absurd h (by decide)
  | raw s =>
    rw [(parse_raw_valid s h).2.2.2] at hfmt
    exact absurd hfmt (by decide)

/-- The selected session's declared total is the frame's total: table
sessions by key coherence, fresh sessions by construction. -/
theorem getSession_total (st : EngineState) (p : ParsedQRData) (now : Nat)
    (hkey : ∀ pr ∈ st.active_sessions, pr.1.2.1 = pr.2.total_chunks) :
    (getSession st p now).total_chunks = p.total_chunks := by
  unfold getSession
  rcases hl : lookupSession st.active_sessions (sessionKeyOf p) with _ | s
  · rfl
  · have hm := lookupSession_mem hl
    have h2 := hkey _ hm
    exact (show p.total_chunks = s.total_chunks from h2).symm

/-- The selected session is a table member (paired with the frame's key) or
the fresh session, whose chunk table is empty. -/
theorem getSession_cases (st : EngineState) (p : ParsedQRData) (now : Nat) :
    (sessionKeyOf p, getSession st p now) ∈ st.active_sessions ∨
    (getSession st p now).received_chunks = [] := by
  unfold getSession
  rcases hl : lookupSession st.active_sessions (sessionKeyOf p) with _ | s
  · right
    rfl
  · left
    exact lookupSession_mem hl

/-- Every chunk entry after `_process_chunk` is an old entry or carries the
frame's index. -/
theorem processChunk_entry_cases (env : ExternalEnv) (sess : ReceptionSession)
    (p : ParsedQRData) (now : Nat) (e : Int × ChunkInfo)
    (he : e ∈ (processChunk env sess p now).2.received_chunks) :
    e ∈ sess.received_chunks ∨ e.1 = p.chunk_index := by
  rcases processChunk_shape env sess p now with hs | ⟨ci, hs⟩
  · rw [hs] at he
    exact Or.inl he
  · rw [hs] at he
    rcases List.mem_append.mp he with h | h
    · exact Or.inl h
    · right
      have h2 : e = (p.chunk_index, ci) := by simpa using h
      rw [h2]

/-- On a failed parse the engine state is returned unchanged. -/
theorem processQrData_invalid_state (env : ExternalEnv) (st : EngineState)
    (q : QRInput) (now : Nat) (hv : ¬ (parse q).is_valid = true) :
    (processQrData env st q now).2 = st := by
  simp only [processQrData]
  rw [if_pos hv]

/-- On a valid parse the new engine state either completes the session and
moves it to the completed table, or stores the updated session in the
active table. -/
theorem processQrData_valid_state (env : ExternalEnv) (st : EngineState)
    (q : QRInput) (now : Nat) (hv : (parse q).is_valid = true) :
    (processQrData env st q now).2 =
      if isComplete { (processChunk env (getSession st (parse q) now) (parse q) now).2 with
          last_activity := now } then
        { active_sessions := eraseSession st.active_sessions (sessionKeyOf (parse q))
          completed_sessions := insertSession st.completed_sessions (sessionKeyOf (parse q))
            (completeSession env
              { (processChunk env (getSession st (parse q) now) (parse q) now).2 with
                  last_activity := now }) }
      else
        { st with
            active_sessions :=
              insertSession st.active_sessions (sessionKeyOf (parse q))
                ({ (processChunk env (getSession st (parse q) now) (parse q) now).2 with
                    last_activity := now }) } := by
  simp only [processQrData]
  rw [if_neg (not_not_intro hv)]
  split <;> rfl

/-- One engine step preserves the session-table invariants. -/
theorem processQrData_preserves_inv (env : ExternalEnv) (st : EngineState)
    (q : QRInput) (now : Nat) (hinv : EngineInv st) :
    EngineInv (processQrData env st q now).2 := by
  obtain ⟨hkey, hact, hcompl, hidx⟩ := hinv
  by_cases hv : (parse q).is_valid = true
  · rw [processQrData_valid_state env st q now hv]
    set p := parse q with hp
    set k := sessionKeyOf p with hk
    set sess0 := getSession st p now with hs0
    set sess2 := { (processChunk env sess0 p now).2 with last_activity := now } with hs2
    have htot0 : sess0.total_chunks = p.total_chunks := getSession_total st p now hkey
    have htot2 : sess2.total_chunks = p.total_chunks := by
      show (processChunk env sess0 p now).2.total_chunks = p.total_chunks
      rw [processChunk_total]
      exact htot0
    have hfresh0 : ((k, sess0) ∈ st.active_sessions) ∨ sess0.received_chunks = [] :=
      getSession_cases st p now
    have hidx0 : ∀ e ∈ sess0.received_chunks, 0 ≤ e.1 := by
      rcases hfresh0 with hm | hf
      · exact fun e he => hidx _ (List.mem_append_left _ hm) e he
      · rw [hf]
        intro e he
        exact absurd he (List.not_mem_nil e)
    have hidx2 : ∀ e ∈ sess2.received_chunks, 0 ≤ e.1 := by
      intro e he
      have he2 : e ∈ (processChunk env sess0 p now).2.received_chunks := he
      rcases processChunk_entry_cases env sess0 p now e he2 with h | h
      · exact hidx0 e h
      · rw [h]
        exact parse_valid_index_nonneg q hv
    have hlen2 : sess2.received_chunks.length = sess0.received_chunks.length ∨
        sess2.received_chunks.length = sess0.received_chunks.length + 1 := by
      rcases processChunk_shape env sess0 p now with hsh | ⟨ci, hsh⟩
      · left
        show (processChunk env sess0 p now).2.received_chunks.length = _
        rw [hsh]
      · right
        show (processChunk env sess0 p now).2.received_chunks.length = _
        rw [hsh]
        simp
    have hlen_le : 0 < p.total_chunks →
        (sess2.received_chunks.length : Int) ≤ p.total_chunks := by
      intro hpos
      have h0 : (sess0.received_chunks.length : Int) < p.total_chunks ∨
          sess0.received_chunks.length = 0 := by
        rcases hfresh0 with hm | hf
        · left
          have h2 : (sess0.received_chunks.length : Int) < sess0.total_chunks :=
            hact _ hm (show 0 < sess0.total_chunks by rw [htot0]; exact hpos)
          rw [htot0] at h2
          exact h2
        · right
          rw [hf]
          rfl
      rcases hlen2 with he | he <;> rcases h0 with h1 | h1 <;> rw [he] <;> omega
    unfold EngineInv
    split
    · rename_i hc
      have hceq : (sess2.received_chunks.length : Int) = sess2.total_chunks := by
        have hc2 : isComplete sess2 = true := hc
        simpa [isComplete] using hc2
      refine ⟨?_, ?_, ?_, ?_⟩
      · intro pr hpr
        exact hkey pr (mem_eraseSession hpr)
      · intro pr hpr hpos
        exact hact pr (mem_eraseSession hpr) hpos
      · intro pr hpr hpos
        rcases mem_insertSession hpr with he | he
        · subst he
          have hf := completeSession_fields env sess2
          show ((completeSession env sess2).received_chunks.length : Int) ≤
            (completeSession env sess2).total_chunks
          rw [hf.1, hf.2]
          exact le_of_eq hceq
        · exact hcompl pr he hpos
      · intro pr hpr e he
        rcases List.mem_append.mp hpr with ha | hco
        · exact hidx pr (List.mem_append_left _ (mem_eraseSession ha)) e he
        · rcases mem_insertSession hco with heq | hold
          · subst heq
            have hf := completeSession_fields env sess2
            have he2 : e ∈ sess2.received_chunks := by
              have he3 : e ∈ (completeSession env sess2).received_chunks := he
              rw [hf.2] at he3
              exact he3
            exact hidx2 e he2
          · exact hidx pr (List.mem_append_right _ hold) e he
    · rename_i hc
      have hcne : ¬ (sess2.received_chunks.length : Int) = sess2.total_chunks := by
        have hc2 : ¬ isComplete sess2 = true := hc
        simpa [isComplete] using hc2
      refine ⟨?_, ?_, ?_, ?_⟩
      · intro pr hpr
        rcases mem_insertSession hpr with he | hold
        · subst he
          show k.2.1 = sess2.total_chunks
          rw [htot2, hk]
          rfl
        · exact hkey pr hold
      · intro pr hpr hpos
        rcases mem_insertSession hpr with he | hold
        · subst he
          have hpos2 : 0 < p.total_chunks := by
            have h3 : 0 < sess2.total_chunks := hpos
            rwa [htot2] at h3
          have hle := hlen_le hpos2
          show (sess2.received_chunks.length : Int) < sess2.total_chunks
          rw [htot2]
          exact lt_of_le_of_ne hle (fun heq => hcne (by rw [htot2]; exact heq))
        · exact hact pr hold hpos
      · intro pr hpr hpos
        exact hcompl pr hpr hpos
      · intro pr hpr e he
        rcases List.mem_append.mp hpr with ha | hco
        · rcases mem_insertSession ha with heq | hold
          · subst heq
            exact hidx2 e he
          · exact hidx pr (List.mem_append_left _ hold) e he
        · exact hidx pr (List.mem_append_right _ hco) e he
  · rw [processQrData_invalid_state env st q now hv]
    exact ⟨hkey, hact, hcompl, hidx⟩

/-- One engine step preserves the v2 index bound whenever the frame, if it
parses at all, is v2-tagged. -/
theorem processQrData_preserves_invV2 (env : ExternalEnv) (st : EngineState)
    (q : QRInput) (now : Nat) (hinv : EngineInv st) (hv2 : EngineInvV2 st)
    (hq : (parse q).is_valid = true → (parse q).format_version = "qrfile/v2") :
    EngineInvV2 (processQrData env st q now).2 := by
  obtain ⟨hkey, hact, hcompl, hidx⟩ := hinv
  by_cases hv : (parse q).is_valid = true
  · rw [processQrData_valid_state env st q now hv]
    set p := parse q with hp
    set k := sessionKeyOf p with hk
    set sess0 := getSession st p now with hs0
    set sess2 := { (processChunk env sess0 p now).2 with last_activity := now } with hs2
    have htot0 : sess0.total_chunks = p.total_chunks := getSession_total st p now hkey
    have htot2 : sess2.total_chunks = p.total_chunks := by
      show (processChunk env sess0 p now).2.total_chunks = p.total_chunks
      rw [processChunk_total]
      exact htot0
    have hb : p.chunk_index < p.total_chunks := parse_valid_v2_bound q hv (hq hv)
    have hup0 : ∀ e ∈ sess0.received_chunks, e.1 < sess0.total_chunks := by
      rcases getSession_cases st p now with hm | hf
      · exact fun e he => hv2 _ (List.mem_append_left _ hm) e he
      · rw [hf]
        intro e he
        exact absurd he (List.not_mem_nil e)
    have hup2 : ∀ e ∈ sess2.received_chunks, e.1 < sess2.total_chunks := by
      intro e he
      have he2 : e ∈ (processChunk env sess0 p now).2.received_chunks := he
      rcases processChunk_entry_cases env sess0 p now e he2 with h | h
      · rw [htot2, ← htot0]
        exact hup0 e h
      · rw [h, htot2]
        exact hb
    unfold EngineInvV2
    split
    · intro pr hpr e he
      rcases List.mem_append.mp hpr with ha | hco
      · exact hv2 pr (List.mem_append_left _ (mem_eraseSession ha)) e he
      · rcases mem_insertSession hco with heq | hold
        · subst heq
          have hf := completeSession_fields env sess2
          have he2 : e ∈ sess2.received_chunks := by
            have he3 : e ∈ (completeSession env sess2).received_chunks := he
            rw [hf.2] at he3
            exact he3
          show e.1 < (completeSession env sess2).total_chunks
          rw [hf.1]
          exact hup2 e he2
        · exact hv2 pr (List.mem_append_right _ hold) e he
    · intro pr hpr e he
      rcases List.mem_append.mp hpr with ha | hco
      · rcases mem_insertSession ha with heq | hold
        · subst heq
          exact hup2 e he
        · exact hv2 pr (List.mem_append_left _ hold) e he
      · exact hv2 pr (List.mem_append_right _ hco) e he
  · rw [processQrData_invalid_state env st q now hv]
    exact hv2

/-- The freshly constructed engine satisfies the invariants vacuously. -/
theorem initState_inv : EngineInv initState := by
  refine ⟨?_, ?_, ?_, ?_⟩ <;> intro pr hpr <;> exact absurd hpr (List.not_mem_nil pr)

/-- The freshly constructed engine satisfies the v2 bound vacuously. -/
theorem initState_invV2 : EngineInvV2 initState := by
  intro pr hpr
  exact absurd hpr (List.not_mem_nil pr)

/-- The invariants hold along every engine run. -/
theorem runEngine_inv (env : ExternalEnv) (inputs : List (QRInput × Nat)) :
    ∀ st : EngineState, EngineInv st → EngineInv (runEngine env st inputs) := by
  induction inputs with
  | nil => exact fun _ h => h
  | cons qt rest ih =>
    intro st h
    exact ih _ (processQrData_preserves_inv env st qt.1 qt.2 h)

/-- Both invariant families hold along every run of v2-tagged frames. -/
theorem runEngine_invV2 (env : ExternalEnv) (inputs : List (QRInput × Nat)) :
    ∀ st : EngineState, EngineInv st → EngineInvV2 st →
      (∀ q ∈ inputs, (parse q.1).is_valid = true →
        (parse q.1).format_version = "qrfile/v2") →
      EngineInv (runEngine env st inputs) ∧ EngineInvV2 (runEngine env st inputs) := by
  induction inputs with
  | nil => exact fun _ h1 h2 _ => ⟨h1, h2⟩
  | cons qt rest ih =>
    intro st h1 h2 hq
    exact ih _ (processQrData_preserves_inv env st qt.1 qt.2 h1)
      (processQrData_preserves_invV2 env st qt.1 qt.2 h1 h2
        (hq qt (List.mem_cons_self _ _)))
      (fun r hr => hq r (List.mem_cons_of_mem _ hr))

/-- C4 (amended): chunk-table invariants of every reachable engine state,
for an arbitrary run.  Unconditionally: whenever a session's declared total
is positive, an active session stores strictly fewer chunks than that total
and a completed one at most that total, and every session in either table
stores only non-negative chunk indices.  When additionally every frame of
the run that parses at all is v2-tagged, each stored index is strictly
below the session's declared total (the v1 and simple parsers omit the
upper bound, and the simple format admits a zero total, under which the
count bound also fails). -/
theorem chunk_table_invariants (env : ExternalEnv) (inputs : List (QRInput × Nat)) :
    (∀ pr ∈ (runEngine env initState inputs).active_sessions,
      0 < pr.2.total_chunks →
        (pr.2.received_chunks.length : Int) < pr.2.total_chunks) ∧
    (∀ pr ∈ (runEngine env initState inputs).completed_sessions,
      0 < pr.2.total_chunks →
        (pr.2.received_chunks.length : Int) ≤ pr.2.total_chunks) ∧
    (∀ pr ∈ (runEngine env initState inputs).active_sessions ++
        (runEngine env initState inputs).completed_sessions,
      ∀ e ∈ pr.2.received_chunks, 0 ≤ e.1) ∧
    ((∀ q ∈ inputs, (parse q.1).is_valid = true →
        (parse q.1).format_version = "qrfile/v2") →
      ∀ pr ∈ (runEngine env initState inputs).active_sessions ++
          (runEngine env initState inputs).completed_sessions,
        ∀ e ∈ pr.2.received_chunks, e.1 < pr.2.total_chunks) := by
  obtain ⟨hkey, hact, hcompl, hidx⟩ := runEngine_inv env inputs initState initState_inv
  refine ⟨hact, hcompl, hidx, ?_⟩
  intro hq
  exact (runEngine_invV2 env inputs initState initState_inv initState_invV2 hq).2

/-- Witness for C4 on the one-frame v2 run: the stored session is active
with one chunk of the declared two (strictly below), at the non-negative
in-range index 0. -/
theorem chunk_table_invariants_witness :
    (0 < v2RunSession.total_chunks ∧
      (v2RunSession.received_chunks.length : Int) < v2RunSession.total_chunks) ∧
    ∀ e ∈ v2RunSession.received_chunks, 0 ≤ e.1 ∧ e.1 < v2RunSession.total_chunks := by
  have h := chunk_table_invariants stdEnv v2Run
  refine ⟨⟨by decide, ?_⟩, ?_⟩
  · exact h.1 (("a", 2, 0), v2RunSession) (by decide) (by decide)
  · intro e he
    exact ⟨h.2.2.1 (("a", 2, 0), v2RunSession) (by decide) e he,
      h.2.2.2 (by decide) (("a", 2, 0), v2RunSession) (by decide) e he⟩

end QRReceiver
